import Mathlib

set_option linter.unusedVariables false

/-! # fusecache: cache coordination and copy engine

A shallow embedding of `src/CacheManager.cpp` (class `CacheManager`) together
with the system calls it relies on, followed by theorems about the embedded
functions.

The POSIX environment is modelled by explicit state passing:

* `FS` is the file-system namespace (regular files and directories);
* `Sys` adds the wall clock, the standard output written by `printf`, and the
  table of open descriptors;
* everything the environment decides during a call (what `read` and `write`
  return, what other actors do while the caller sleeps) is an explicit argument.
-/

namespace FuseCache

/-! ## Constants of the system headers (Linux values) -/

def O_RDONLY : Nat := 0
def O_WRONLY : Nat := 1
def O_ACCMODE : Nat := 3
def O_CREAT : Nat := 64
def O_EXCL : Nat := 128
def O_NOATIME : Nat := 262144

def ENOENT : Int := 2
def EACCES : Int := 13
def EEXIST : Int := 17

/-! ## File system state -/

/-- A regular file: its bytes, its time stamps in seconds, and two switches that
let the environment make `open` for reading and `lstat` fail on it. -/
structure File where
  content : List Nat
  atime : Int
  mtime : Int
  readable : Bool
  statOk : Bool
deriving DecidableEq, Repr

/-- The fields of `struct stat` the code reads. -/
structure Stat where
  st_size : Nat
  st_atime : Int
  st_mtime : Int
deriving DecidableEq, Repr

/-- The namespace: regular files by path, and the set of existing directories. -/
structure FS where
  files : String → Option File
  dirs : String → Bool

/-- The state a call runs in. `out` collects the lines written by `printf`,
`fds` maps each open descriptor to the path it was opened on. -/
structure Sys where
  fs : FS
  now : Int
  out : List String
  fds : List (Nat × String)

/-- Replaces (or removes, with `none`) the file at `path`. -/
def FS.setFile (fs : FS) (path : String) (f : Option File) : FS :=
  { fs with files := fun q => if q = path then f else fs.files q }

/-- The call `access(path, F_OK) >= 0`. -/
def FS.access (fs : FS) (path : String) : Bool :=
  (fs.files path).isSome

/-- The call `lstat(path, &sb)`: `none` stands for the result `-1`. -/
def FS.lstat (fs : FS) (path : String) : Option Stat :=
  match fs.files path with
  | none => none
  | some f => if f.statOk then some ⟨f.content.length, f.atime, f.mtime⟩ else none

/-- The call `remove(path)`. -/
def FS.remove (fs : FS) (path : String) : FS :=
  fs.setFile path none

/-- The call `rename(a, b)`; its result is ignored by the caller. With no file
at `a` it fails and changes nothing. -/
def FS.rename (fs : FS) (a b : String) : FS :=
  match fs.files a with
  | none => fs
  | some f => (fs.setFile b (some f)).setFile a none

/-- The call `utime(path, &tb)`: its result (`0` or `-1`) and the namespace
after it. -/
def FS.utime (fs : FS) (path : String) (actime modtime : Int) : Int × FS :=
  match fs.files path with
  | none => (-1, fs)
  | some f => (0, fs.setFile path (some { f with atime := actime, mtime := modtime }))

/-- The function `difftime(a, b)` on whole seconds. The source stores the result
in a `double` or a `float` and compares it with `0` or `120.0`; rounding is
monotone and fixes the integers `0`, `120` and `121`, so every comparison made by
the source has the value of the same comparison on the exact difference. -/
def difftime (a b : Int) : Int := a - b

/-- The call `printf(line)`. -/
def Sys.printf (s : Sys) (line : String) : Sys :=
  { s with out := s.out ++ [line] }

/-! ## Path resolver (`CacheManager.cpp` 428-450) -/

/-- The configuration members of `CacheManager`. The two bandwidth ceilings are
`float` members; a finite `float` is a rational number. -/
structure Config where
  m_rootPath : String
  m_readCacheDir : String
  m_writeCacheDir : String
  m_mountPoint : String
  m_maxUpBandwidth : ℚ
  m_maxDownBandwidth : ℚ

def origFilePath (cfg : Config) (filePath : String) : String :=
  cfg.m_rootPath ++ filePath

def readCacheFilePath (cfg : Config) (filePath : String) : String :=
  cfg.m_readCacheDir ++ filePath

def writeCacheFilePath (cfg : Config) (filePath : String) : String :=
  cfg.m_writeCacheDir ++ filePath

def partFilePath (filePath : String) : String :=
  filePath ++ ".part"

/-! ## Part-file coordinator (`CacheManager.cpp` 42-87) -/

/-- `CacheManager::canPartFileBeDeleted` (lines 42-62). -/
def canPartFileBeDeleted (s : Sys) (path : String) : Bool :=
  if s.fs.access path then
    match s.fs.lstat path with
    | none => true
    | some sb =>
      let now := s.now
      let diff := difftime now sb.st_mtime
      if diff > 120 then true else false
  else false

/-- What one call of `waitForFile` did, in order: `poll` is one pass through the
body of its loop (lines 73-79), `removed` a call of `remove`, `slept` a call of
`sleep`. -/
inductive WaitEvent where
  | poll
  | removed (path : String)
  | slept (secs : Nat)
deriving DecidableEq, Repr

structure WaitResult where
  ret : Int
  sys : Sys
  trace : List WaitEvent

/-- The `while (count > 0)` loop of `waitForFile` (lines 72-82). `sleep secs` is
what the rest of the world does to the state while the caller sleeps. -/
def waitLoop (sleep : Nat → Sys → Sys) (partPath : String) (wait_in_secs : Nat) :
    Nat → Sys → WaitResult
  | 0, s => ⟨-1, s, []⟩
  | count + 1, s =>
    if s.fs.access partPath = false then
      ⟨0, s, [WaitEvent.poll]⟩
    else if canPartFileBeDeleted s partPath then
      ⟨0, { s with fs := s.fs.remove partPath }, [WaitEvent.poll, WaitEvent.removed partPath]⟩
    else
      let r := waitLoop sleep partPath wait_in_secs count (sleep wait_in_secs s)
      ⟨r.ret, r.sys, WaitEvent.poll :: WaitEvent.slept wait_in_secs :: r.trace⟩

/-- `CacheManager::waitForFile` (lines 64-87). The quotient `900.0f / 30.0f` is
exact, so `count` is the integer quotient. -/
def waitForFile (sleep : Nat → Sys → Sys) (s : Sys) (path : String) : WaitResult :=
  let partPath := partFilePath path
  if s.fs.access partPath then
    let timeout_in_secs : Nat := 15 * 60
    let wait_in_secs : Nat := 30
    let count := timeout_in_secs / wait_in_secs
    waitLoop sleep partPath wait_in_secs count s
  else
    ⟨0, s, []⟩

/-! ## Directories and `open` -/

/-- `std::filesystem::path(p).parent_path()` for POSIX paths: a path with no
relative part (empty, or slashes only) is returned as it is; otherwise the last
component and the slashes before it are cut off, the root directory staying `/`. -/
def parent_path (path : String) : String :=
  let cs := path.data
  if cs.all (fun c => c == '/') then path
  else
    let t := cs.reverse.dropWhile (fun c => c != '/')
    let u := t.dropWhile (fun c => c == '/')
    if u.isEmpty then (if t.isEmpty then "" else "/") else String.mk u.reverse

/-- Every proper ancestor of a path and the path itself, as `create_directories`
visits them: the prefixes that end just before a slash, then the whole path.
The first argument is the prefix read so far, reversed. -/
def ancestorsAux : List Char → List Char → List String
  | pre, [] => if pre.isEmpty then [] else [String.mk pre.reverse]
  | pre, c :: cs =>
    (if c = '/' ∧ pre ≠ [] then [String.mk pre.reverse] else []) ++ ancestorsAux (c :: pre) cs

def ancestors (dir : String) : List String :=
  ancestorsAux [] dir.data

/-- `std::filesystem::create_directories(dir)`: afterwards `dir` and all its
ancestors are directories. The exceptions it can throw are not modelled. -/
def FS.create_directories (fs : FS) (dir : String) : FS :=
  { fs with dirs := fun q => fs.dirs q || (ancestors dir).contains q }

/-- The effect of `open(path, flags, mode)` on the namespace: the namespace after
the call, or the value of `errno`. A missing file is created under `O_CREAT`
when its parent directory exists. -/
def FS.sysOpen (fs : FS) (now : Int) (path : String) (flags : Nat) : Except Int FS :=
  match fs.files path with
  | some f =>
    if flags &&& O_CREAT ≠ 0 ∧ flags &&& O_EXCL ≠ 0 then Except.error EEXIST
    else if flags &&& O_ACCMODE ≠ O_WRONLY ∧ f.readable = false then Except.error EACCES
    else Except.ok fs
  | none =>
    if flags &&& O_CREAT ≠ 0 then
      if fs.dirs (parent_path path) then
        Except.ok (fs.setFile path (some ⟨[], now, now, true, true⟩))
      else Except.error ENOENT
    else Except.error ENOENT

/-- The lowest descriptor number not in use. -/
def lowestFree (used : List Nat) : Nat :=
  ((List.range (used.length + 1)).find? (fun n => !used.contains n)).getD 0

/-- The call `open(path, flags, mode)`: the new descriptor, or `errno`. -/
def Sys.sysOpen (s : Sys) (path : String) (flags : Nat) : Except Int Nat × Sys :=
  match s.fs.sysOpen s.now path flags with
  | Except.error e => (Except.error e, s)
  | Except.ok fs1 =>
    let fd := lowestFree (s.fds.map Prod.fst)
    (Except.ok fd, { s with fs := fs1, fds := (fd, path) :: s.fds })

/-- The bytes `write` appends through a descriptor opened on a fresh file. -/
def FS.appendFile (fs : FS) (now : Int) (path : String) (bytes : List Nat) : FS :=
  match fs.files path with
  | none => fs
  | some f => fs.setFile path (some { f with content := f.content ++ bytes, mtime := now })

/-! ## Throttled copy engine (`CacheManager.cpp` 110-193) -/

def BUF_SIZE : Nat := 20480

/-- What one call `read(fd_from, buf, sizeof buf)` returns: bytes (none at end
of input), or `-1`. -/
inductive ReadResult where
  | data (bytes : List Nat)
  | error
deriving DecidableEq, Repr

/-- What one call `write(fd_to, out_ptr, nread)` returns: a count, `-1` with
`errno == EINTR`, or `-1` with another `errno`. -/
inductive WriteResult where
  | wrote (n : Nat)
  | eintr
  | error
deriving DecidableEq, Repr

/-- The environment of one copy: the results of the successive `read` calls (after
the last one `read` returns 0), the results of the successive `write` calls (after
the last one `write` takes all it is given), and whether `close(fd_to)` succeeds. -/
structure CopyEnv where
  reads : List ReadResult
  writes : List WriteResult
  closeOk : Bool

/-- The `do ... while (nread > 0)` loop (lines 148-160) on the bytes still to be
written. Returns `false` at `goto out_error`, the namespace, and the unused
`write` results. A count above the request is cut to the request. -/
def writeChunk (now : Int) (toPart : String) :
    List WriteResult → List Nat → FS → Bool × FS × List WriteResult
  | [], pending, fs => (true, fs.appendFile now toPart pending, [])
  | WriteResult.wrote n :: ws, pending, fs =>
    let nwritten := min n pending.length
    let fs1 := fs.appendFile now toPart (pending.take nwritten)
    if (pending.drop nwritten).length > 0 then
      writeChunk now toPart ws (pending.drop nwritten) fs1
    else (true, fs1, ws)
  | WriteResult.eintr :: ws, pending, fs => writeChunk now toPart ws pending fs
  | WriteResult.error :: ws, _, fs => (false, fs, ws)

/-- How the `while (true)` loop (lines 134-166) is left. -/
inductive LoopEnd where
  | eof
  | readError
  | writeError
deriving DecidableEq, Repr

/-- The `while (true)` loop (lines 134-166). `read` returns at most `BUF_SIZE`
bytes. The pacing (`clock`, `msleep`) takes time and changes no file. -/
def copyLoop (now : Int) (toPart : String) :
    List ReadResult → List WriteResult → FS → LoopEnd × FS
  | [], _, fs => (LoopEnd.eof, fs)
  | ReadResult.error :: _, _, fs => (LoopEnd.readError, fs)
  | ReadResult.data bytes :: rs, ws, fs =>
    let chunk := bytes.take BUF_SIZE
    if chunk.length = 0 then (LoopEnd.eof, fs)
    else
      match writeChunk now toPart ws chunk fs with
      | (false, fs1, _) => (LoopEnd.writeError, fs1)
      | (true, fs1, ws1) => copyLoop now toPart rs ws1 fs1

/-- The label `out_error` (lines 182-192). -/
def out_error (s : Sys) (toPart : String) : Int × Sys :=
  (-1, s.printf ("COPY ERROR - delete part file: " ++ toPart ++ "\n"))

/-- `CacheManager::copyFile` (lines 110-193). Both descriptors are closed on
every path, so the descriptor table is as before. -/
def copyFile (s : Sys) (io : CopyEnv) (from_ to_ : String) : Int × Sys :=
  match s.fs.sysOpen s.now from_ O_RDONLY with
  | Except.error _ => (-1, s)
  | Except.ok _ =>
    let toPart := partFilePath to_
    let dir := parent_path toPart
    let fs1 := s.fs.create_directories dir
    match fs1.sysOpen s.now toPart (O_WRONLY ||| O_CREAT ||| O_EXCL) with
    | Except.error _ => out_error { s with fs := fs1 } toPart
    | Except.ok fs2 =>
      match copyLoop s.now toPart io.reads io.writes fs2 with
      | (LoopEnd.eof, fs3) =>
        if io.closeOk = false then out_error { s with fs := fs3 } toPart
        else
          let s1 := Sys.printf { s with fs := fs3 }
            ("COPY SUCCESS - rename part file: " ++ toPart ++ "\n")
          (0, { s1 with fs := s1.fs.rename toPart to_ })
      | (_, fs3) => out_error { s with fs := fs3 } toPart

/-! ## Cache manager (`CacheManager.cpp` 229-289, 357-417) -/

/-- The freshness decision of `copyFileOnDemand` (lines 233-258): the value of
`needs_copy`, or `none` where the function returns `-1` because a stat failed. -/
def needs_copy (s : Sys) (from_ to_ : String) : Option Bool :=
  if s.fs.access to_ = false then some true
  else
    match s.fs.lstat from_, s.fs.lstat to_ with
    | some sb_from, some sb_to =>
      let diff := difftime sb_to.st_mtime sb_from.st_mtime
      if diff < 0 ∨ sb_from.st_size ≠ sb_to.st_size then some true else some false
    | _, _ => none

/-- The branch `if (needs_copy)` of `copyFileOnDemand` (lines 260-285): the copy
step. The result of `copyFile` is stored in `res`; where the cache path exists
afterwards `res` is assigned again from `utime`. -/
def copyStep (s : Sys) (io : CopyEnv) (from_ to_ : String) : Int × Sys :=
  let s1 := s.printf ("COPYING file from: " ++ from_ ++ " to: " ++ to_ ++ "\n")
  let (res, s2) := copyFile s1 io from_ to_
  if s2.fs.access to_ then
    match s2.fs.lstat from_, s2.fs.lstat to_ with
    | some sb_from, some _ =>
      let (res, fs3) := s2.fs.utime to_ sb_from.st_atime sb_from.st_mtime
      if res = -1 then (-1, s2) else (res, { s2 with fs := fs3 })
    | _, _ => (-1, s2)
  else (-1, s2)

/-- `CacheManager::copyFileOnDemand` (lines 229-289), run by one thread. The
member `m_isCopying` is written and never read. -/
def copyFileOnDemand (s : Sys) (io : CopyEnv) (from_ to_ : String) : Int × Sys :=
  let res : Int := 0
  match needs_copy s from_ to_ with
  | none => (-1, s)
  | some false => (res, s)
  | some true => copyStep s io from_ to_

/-- `CacheManager::openFile` (lines 357-388). -/
def openFile (cfg : Config) (sleep : Nat → Sys → Sys) (io : CopyEnv) (s : Sys)
    (filePath : String) (flags : Nat) : Int × Sys :=
  let origPath := origFilePath cfg filePath
  let cachePath := readCacheFilePath cfg filePath
  if flags &&& O_NOATIME = 0 then
    let w := waitForFile sleep s cachePath
    if w.ret = -1 then (-EACCES, w.sys)
    else
      let (ret, s2) := copyFileOnDemand w.sys io origPath cachePath
      if ret = -1 then (-EACCES, s2)
      else
        match s2.sysOpen cachePath flags with
        | (Except.error errno, s3) => (-errno, s3)
        | (Except.ok fd, s3) => ((fd : Int), s3)
  else
    match s.sysOpen origPath flags with
    | (Except.error errno, s3) => (-errno, s3)
    | (Except.ok fd, s3) => ((fd : Int), s3)

/-- `CacheManager::createFile` (lines 406-417). -/
def createFile (cfg : Config) (s : Sys) (filePath : String) (mode : Nat) (flags : Nat) :
    Int × Sys :=
  let cachePath := writeCacheFilePath cfg filePath
  let dir := parent_path filePath
  let s1 := { s with fs := s.fs.create_directories dir }
  let _ := mode
  match s1.sysOpen cachePath flags with
  | (Except.error errno, s2) => (-errno, s2)
  | (Except.ok fd, s2) => ((fd : Int), s2)

/-! ## The copy mutex (`CacheManager.h` 69, `CacheManager.cpp` 231) -/

/-- Where a thread stands in its call of `copyFileOnDemand`. -/
inductive Pc where
  /-- about to construct the `lock_guard` on `m_copyMutex` (line 231) -/
  | entry
  /-- holds the mutex, executing the freshness decision (lines 232-258) -/
  | deciding
  /-- holds the mutex, executing the copy step (lines 260-285) -/
  | copying
  /-- has returned; the destructor of the guard has released the mutex -/
  | returned (res : Int)
deriving DecidableEq, Repr

/-- One call of `copyFileOnDemand` in flight. -/
structure Call where
  from_ : String
  to_ : String
  io : CopyEnv
  pc : Pc

/-- The state shared by the threads of the process: the system state, the owner
of `m_copyMutex` if it is locked, and the call each thread is running. -/
structure Shared where
  sys : Sys
  m_copyMutex : Option Nat
  calls : List Call

/-- The thread is between the construction of the guard and its return. -/
def Pc.inCopySection : Pc → Bool
  | Pc.deciding => true
  | Pc.copying => true
  | _ => false

/-- One scheduling step of thread `t`. A thread at `entry` takes the mutex when it
is free and stays blocked otherwise; every `return` of the function releases it. -/
def stepThread (σ : Shared) (t : Nat) : Shared :=
  match σ.calls[t]? with
  | none => σ
  | some c =>
    match c.pc with
    | Pc.entry =>
      match σ.m_copyMutex with
      | none => { σ with m_copyMutex := some t, calls := σ.calls.set t { c with pc := Pc.deciding } }
      | some _ => σ
    | Pc.deciding =>
      match needs_copy σ.sys c.from_ c.to_ with
      | none =>
        { σ with m_copyMutex := none, calls := σ.calls.set t { c with pc := Pc.returned (-1) } }
      | some false =>
        { σ with m_copyMutex := none, calls := σ.calls.set t { c with pc := Pc.returned 0 } }
      | some true => { σ with calls := σ.calls.set t { c with pc := Pc.copying } }
    | Pc.copying =>
      let (res, sys1) := copyStep σ.sys c.io c.from_ c.to_
      { sys := sys1, m_copyMutex := none, calls := σ.calls.set t { c with pc := Pc.returned res } }
    | Pc.returned _ => σ

/-- The threads run in the order the scheduler picks them. -/
def runSchedule (σ : Shared) (schedule : List Nat) : Shared :=
  schedule.foldl stepThread σ

/-- All calls are at their entry and the mutex is free. -/
def initialShared (sys : Sys) (args : List (String × String × CopyEnv)) : Shared :=
  { sys := sys, m_copyMutex := none,
    calls := args.map (fun a => { from_ := a.1, to_ := a.2.1, io := a.2.2, pc := Pc.entry }) }

/-- Every thread inside the section owns the mutex. -/
def MutexInv (σ : Shared) : Prop :=
  ∀ t c, σ.calls[t]? = some c → c.pc.inCopySection = true → σ.m_copyMutex = some t

/-! ## Lexical resolution of a path -/

/-- The components of a path: the pieces between slashes. The second argument
is the component being read, reversed. -/
def splitPathAux : List Char → List Char → List (List Char)
  | [], cur => [cur.reverse]
  | c :: cs, cur => if c = '/' then cur.reverse :: splitPathAux cs [] else splitPathAux cs (c :: cur)

def splitPath (path : String) : List (List Char) :=
  splitPathAux path.data []

/-- One component applied to the directory reached so far: empty components and
`.` stay, `..` goes to the parent (the root is its own parent), a name descends. -/
def normStep (stack : List (List Char)) (comp : List Char) : List (List Char) :=
  if comp = [] ∨ comp = ['.'] then stack
  else if comp = ['.', '.'] then stack.dropLast
  else stack ++ [comp]

/-- The location an absolute path names once `.` and `..` are resolved: the list
of directory names from the root. -/
def normalize (path : String) : List (List Char) :=
  (splitPath path).foldl normStep []

/-- The path `path` resolves to `root` or to a location below it. -/
def insideRoot (root path : String) : Prop :=
  normalize root <+: normalize path

instance (root path : String) : Decidable (insideRoot root path) := by
  unfold insideRoot; infer_instance

/-- Followed from a directory `depth` levels below a starting directory, these
components never step above the starting directory. -/
def staysBelow : Nat → List (List Char) → Bool
  | _, [] => true
  | depth, comp :: rest =>
    if comp = [] ∨ comp = ['.'] then staysBelow depth rest
    else if comp = ['.', '.'] then
      match depth with
      | 0 => false
      | d + 1 => staysBelow d rest
    else staysBelow (depth + 1) rest

/-! ## Background write-back scheduler (`CacheManager.cpp` 318-343) -/

/-- The conversion `(int)x` of a `float`: truncation toward zero. Where the
result does not fit a 32-bit `int` the conversion is undefined in C++; the
conversion instruction of x86-64 then delivers the least `int`, and so does
this function. -/
def truncToInt (x : ℚ) : Int :=
  let t : Int := if 0 ≤ x then ⌊x⌋ else -⌊-x⌋
  if -(2 : Int) ^ 31 ≤ t ∧ t < (2 : Int) ^ 31 then t else -(2 : Int) ^ 31

/-- The function `std::to_string(int)`. -/
def to_string (i : Int) : String :=
  toString i

/-- The command `CacheManager::run` builds in its local `rsyncCommand` (lines
320-330) and then executes once per iteration. The product with `1024.0f` is
exact on a `float` while it stays in the range of `float`; an infinite product
is converted like every other value that does not fit an `int`. -/
def rsyncCommand (cfg : Config) : String :=
  let rsyncCommand := "rsync -av "
  let rsyncCommand :=
    if cfg.m_maxDownBandwidth > 0 then
      let maxDown := truncToInt (cfg.m_maxDownBandwidth * 1024)
      rsyncCommand ++ ("--bwlimit=" ++ to_string maxDown)
    else rsyncCommand
  let rsyncCommand := rsyncCommand ++ " "
  let rsyncCommand := rsyncCommand ++ "--exclude='*.part'"
  let rsyncCommand := rsyncCommand ++ " "
  let rsyncCommand := rsyncCommand ++ (cfg.m_writeCacheDir ++ "/")
  let rsyncCommand := rsyncCommand ++ " "
  let rsyncCommand := rsyncCommand ++ cfg.m_rootPath
  rsyncCommand

/-- The part marker exists, its `lstat` succeeds, and it is at most 120 seconds
old (a modification time in the future counts as fresh). -/
def markerFresh (s : Sys) (partPath : String) : Bool :=
  match s.fs.files partPath with
  | some f => f.statOk && decide (s.now - f.mtime ≤ 120)
  | none => false

/-- The seconds slept in a trace. -/
def sleptTotal : List WaitEvent → Nat
  | [] => 0
  | WaitEvent.slept secs :: rest => secs + sleptTotal rest
  | _ :: rest => sleptTotal rest

/-- The number of sleeps in a trace. -/
def sleepCount : List WaitEvent → Nat
  | [] => 0
  | WaitEvent.slept _ :: rest => 1 + sleepCount rest
  | _ :: rest => sleepCount rest

/-! ## Observations on a run of `copyFile` -/

/-- The bytes the successive `read` calls deliver up to the end of input: each
result cut to `BUF_SIZE`, up to the first empty result or `-1`. -/
def readBytes : List ReadResult → List Nat
  | [] => []
  | ReadResult.error :: _ => []
  | ReadResult.data bytes :: rs =>
    if (bytes.take BUF_SIZE).length = 0 then [] else bytes.take BUF_SIZE ++ readBytes rs


/-! ## Pacing of the copy loop (`CacheManager.cpp` 89-108, 113, 136-143, 162-165)

Times are seconds. A value of type `double` is the rational number it denotes,
and every operation the source does on `double` is the exact operation followed
by `roundDouble`. -/

/-- Rounding to the nearest integer, a tie going to the even one. -/
def roundEven (q : ℚ) : Int :=
  let f : Int := ⌊q⌋
  let r : ℚ := q - f
  if r < 1 / 2 then f else if 1 / 2 < r then f + 1 else if f % 2 = 0 then f else f + 1

/-- The `double` nearest to `x` (IEEE 754 binary64: a significand of 53 bits,
round to nearest, ties to even). Overflow and subnormal numbers are left out. -/
def roundDouble (x : ℚ) : ℚ :=
  if x = 0 then 0
  else
    let e : Int := Int.log 2 |x|
    let ulp : ℚ := (2 : ℚ) ^ (e - 52)
    (roundEven (x / ulp) : ℚ) * ulp

/-- The constant `CLOCKS_PER_SEC` (POSIX value). -/
def CLOCKS_PER_SEC : Nat := 1000000

/-- The local `goalTime` of `copyFile` (line 113). The ceiling it uses is the
member `m_maxUpBandwidth`, a `float`. The product of the `float` factors is
exact while it stays in the range of `float`; beyond that range it is infinite
and the quotient is zero. The quotient is taken in `double`. (For a ceiling of
zero the source divides by zero; the value here is zero, and as in the source
no pass sleeps.) -/
def goalTime (cfg : Config) : ℚ :=
  let product : ℚ := 1024 * 1024 * cfg.m_maxUpBandwidth
  if |product| < 2 ^ 128 then roundDouble ((BUF_SIZE : ℚ) / product) else 0

/-- The local `time` (line 142) for a difference `end - start` of `ticks`. -/
def pacingTime (ticks : Nat) : ℚ :=
  roundDouble (roundDouble (ticks : ℚ) / (CLOCKS_PER_SEC : ℚ))

/-- The local `diff` (line 143). -/
def pacingDiff (cfg : Config) (ticks : Nat) : ℚ :=
  roundDouble (goalTime cfg - pacingTime ticks)

/-- The product `diff * 1000.0` (line 163). -/
def pacingProduct (cfg : Config) (ticks : Nat) : ℚ :=
  roundDouble (pacingDiff cfg ticks * 1000)

/-- The conversion `(long)x` of a `double`: truncation toward zero. Where the
result does not fit a 64-bit `long` the conversion is undefined in C++; the
conversion instruction of x86-64 then delivers the least `long`, and so does
this function. -/
def truncToLong (x : ℚ) : Int :=
  let t : Int := if 0 ≤ x then ⌊x⌋ else -⌊-x⌋
  if -(2 : Int) ^ 63 ≤ t ∧ t < (2 : Int) ^ 63 then t else -(2 : Int) ^ 63

/-- The function `msleep(msec)` (lines 89-108): its result and the seconds the
caller is suspended. `nanosleep` is restarted until the whole time has passed;
`over` is what the suspension lasts beyond the request. -/
def msleep (msec : Int) (over : ℚ) : Int × ℚ :=
  if msec < 0 then (-1, 0) else (0, (msec : ℚ) / 1000 + over)

/-- What the environment decides about time in one pass of the copy loop:
`ticks` is `end - start`, the processor time `clock()` reports for the `read`
call; `wall` is the wall-clock time the `read` and the `write` calls of the pass
take; `over` is the overshoot of the pacing sleep. -/
structure ChunkClock where
  ticks : Nat
  wall : ℚ
  over : ℚ

/-- The pacing of one pass (lines 141-143 and 162-165): the seconds the caller
is suspended after the chunk is written. -/
def pacingSleep (cfg : Config) (c : ChunkClock) : ℚ :=
  let diff : ℚ := pacingDiff cfg c.ticks
  if diff > 0 then
    let msecs : Int := truncToLong (pacingProduct cfg c.ticks)
    (msleep msecs c.over).2
  else 0

namespace Fixture

/-- The layout `main` sets up below a working directory `/srv`: the read cache
and the write cache coincide. -/
def cfg : Config :=
  { m_rootPath := "/srv/orig", m_readCacheDir := "/srv/cache", m_writeCacheDir := "/srv/cache",
    m_mountPoint := "/srv/mnt", m_maxUpBandwidth := 1, m_maxDownBandwidth := 1 }

/-- The same layout with a download ceiling of 1.5 MB/s. -/
def cfgLimited : Config :=
  { cfg with m_maxDownBandwidth := 3 / 2 }

/-- The same layout with no download ceiling. -/
def cfgUnlimited : Config :=
  { cfg with m_maxDownBandwidth := 0 }

/-- The directories `createDirectories` has made. -/
def dirs (p : String) : Bool :=
  p = "/" || p = "/srv" || p = "/srv/orig" || p = "/srv/cache" || p = "/srv/mnt"

def stdio : List (Nat × String) :=
  [(0, "/dev/stdin"), (1, "/dev/stdout"), (2, "/dev/stderr")]

/-- The origin holds three bytes written at time 200. -/
def origFile : File :=
  { content := [1, 2, 3], atime := 200, mtime := 200, readable := true, statOk := true }

/-- An older cached copy of one byte, fetched at time 100. -/
def staleFile : File :=
  { content := [9], atime := 100, mtime := 100, readable := true, statOk := true }

/-- The origin file `/a` with a stale copy in the read cache and no part marker. -/
def staleSys : Sys :=
  { fs := { files := fun p =>
              if p = "/srv/orig/a" then some origFile
              else if p = "/srv/cache/a" then some staleFile
              else none,
            dirs := dirs },
    now := 1000, out := [], fds := stdio }

/-- The same, with an origin file the process may stat and may not read. -/
def unreadableSys : Sys :=
  { staleSys with
    fs := { files := fun p =>
              if p = "/srv/orig/a" then some { origFile with readable := false }
              else if p = "/srv/cache/a" then some staleFile
              else none,
            dirs := dirs } }

/-- Only the origin file exists. -/
def absentSys : Sys :=
  { fs := { files := fun p => if p = "/srv/orig/a" then some origFile else none, dirs := dirs },
    now := 1000, out := [], fds := stdio }

/-- The first `read` delivers two bytes, the second fails. -/
def failingRead : CopyEnv :=
  { reads := [ReadResult.data [1, 2], ReadResult.error], writes := [], closeOk := true }

/-- The origin is read in two pieces; `write` is interrupted once and once short. -/
def goodRead : CopyEnv :=
  { reads := [ReadResult.data [1, 2], ReadResult.data [3]],
    writes := [WriteResult.eintr, WriteResult.wrote 1], closeOk := true }

/-- A part marker last written at time 990. -/
def markerFile : File :=
  { content := [1], atime := 990, mtime := 990, readable := true, statOk := true }

/-- A copy into `/srv/cache/a` is in flight: its part marker exists. At time
1000 the marker is 10 seconds old. -/
def copyingSys : Sys :=
  { fs := { files := fun p =>
              if p = "/srv/orig/a" then some origFile
              else if p = "/srv/cache/a.part" then some markerFile
              else none,
            dirs := dirs },
    now := 1000, out := [], fds := stdio }

/-- While the caller sleeps, a slow copy keeps writing to the marker: the
clock advances and the marker was last modified 10 seconds before the wake. -/
def refresh (secs : Nat) (s : Sys) : Sys :=
  { s with
    now := s.now + secs,
    fs := s.fs.setFile "/srv/cache/a.part" (some { markerFile with mtime := s.now + secs - 10 }) }

/-- While the caller sleeps the clock advances and nothing else happens. -/
def idle (secs : Nat) (s : Sys) : Sys :=
  { s with now := s.now + secs }

/-- A slow copy keeps the marker fresh and completes during the sleep that ends
at time 1900: it renames the marker to the cache file. -/
def finishing (secs : Nat) (s : Sys) : Sys :=
  if s.now + secs < 1900 then refresh secs s
  else
    { s with
      now := s.now + secs,
      fs := s.fs.rename "/srv/cache/a.part" "/srv/cache/a" }

/-- A pass whose `read` shows no processor time, whose input and output take a
tenth of a millisecond, and whose sleep does not overshoot. -/
def fastClock : ChunkClock :=
  { ticks := 0, wall := 1 / 10000, over := 0 }

/-- The layout with an upload ceiling of 0.25 MB/s. -/
def cfgQuarter : Config :=
  { cfg with m_maxUpBandwidth := 1 / 4 }

/-- A pass whose `read` shows 20125 ticks of processor time and whose input and
output take 25 ms; its sleep does not overshoot. -/
def slowClock : ChunkClock :=
  { ticks := 20125, wall := 1 / 40, over := 0 }

/-- The layout with an upload ceiling of `2 ^ -100` MB/s. -/
def cfgTiny : Config :=
  { cfg with m_maxUpBandwidth := 1 / 2 ^ 100 }

/-- The layout with an upload ceiling of `2 ^ 110` MB/s. -/
def cfgVast : Config :=
  { cfg with m_maxUpBandwidth := 2 ^ 110 }

end Fixture

end FuseCache

namespace FuseCache

/-! # Theorems -/

/-! ## C1: a failed copy with a stale cached copy present -/

/-- C1 (the code departs from the claim): with a stale copy at the read-cache
path and a `read` error in mid-stream, the flags carry no `O_NOATIME`, the wait
step returns 0 and `copyFile` returns -1; yet `copyFileOnDemand` returns 0 and
`openFile` returns descriptor 3, opened on the cache file that still holds the
stale byte, where the claim requires `-EACCES`. -/
theorem openFile_stale_copy_after_failed_copy :
    O_RDONLY &&& O_NOATIME = 0 ∧
    (waitForFile Fixture.idle Fixture.staleSys "/srv/cache/a").ret = 0 ∧
    (copyFile Fixture.staleSys Fixture.failingRead "/srv/orig/a" "/srv/cache/a").1 = -1 ∧
    (copyFileOnDemand Fixture.staleSys Fixture.failingRead "/srv/orig/a" "/srv/cache/a").1 = 0 ∧
    (openFile Fixture.cfg Fixture.idle Fixture.failingRead Fixture.staleSys "/a" O_RDONLY).1 = 3 ∧
    (openFile Fixture.cfg Fixture.idle Fixture.failingRead Fixture.staleSys "/a" O_RDONLY).1
      ≠ -EACCES ∧
    (3, "/srv/cache/a") ∈
      (openFile Fixture.cfg Fixture.idle Fixture.failingRead Fixture.staleSys "/a" O_RDONLY).2.fds ∧
    ((openFile Fixture.cfg Fixture.idle Fixture.failingRead Fixture.staleSys "/a"
      O_RDONLY).2.fs.files "/srv/cache/a").map File.content = some [9] := by
  decide

/-! ## C2: the freshness decision -/

/-- C2: when the stats the decision consults succeed, `copyFileOnDemand` decides
Fresh exactly when the cache path exists, the sizes are equal and the cache
modification time is not earlier than the origin's, and then it returns 0 and
leaves the state as it was (no copy is run); it decides to copy exactly when the
cache path is absent, the origin is strictly newer, or the sizes differ, and
then it runs the copy step. -/
theorem needs_copy_fresh_iff (s : Sys) (io : CopyEnv) (from_ to_ : String) (sb_from sb_to : Stat)
    (hfrom : s.fs.lstat from_ = some sb_from)
    (hto : s.fs.access to_ = true → s.fs.lstat to_ = some sb_to) :
    (needs_copy s from_ to_ = some false ↔
      s.fs.access to_ = true ∧ sb_from.st_size = sb_to.st_size ∧
        sb_from.st_mtime ≤ sb_to.st_mtime) ∧
    (needs_copy s from_ to_ = some true ↔
      s.fs.access to_ = false ∨ sb_to.st_mtime < sb_from.st_mtime ∨
        sb_from.st_size ≠ sb_to.st_size) ∧
    (needs_copy s from_ to_ = some false → copyFileOnDemand s io from_ to_ = (0, s)) ∧
    (needs_copy s from_ to_ = some true →
      copyFileOnDemand s io from_ to_ = copyStep s io from_ to_) := by
  refine ⟨?_, ?_, ?_, ?_⟩
  · unfold needs_copy
    cases hacc : s.fs.access to_ with
    | false => simp
    | true =>
      simp only [hfrom, hto hacc, difftime]
      by_cases hsz : sb_from.st_size = sb_to.st_size
      · by_cases hm : sb_to.st_mtime - sb_from.st_mtime < 0
        · simp [hsz, hm]; omega
        · simp [hsz, hm]; omega
      · simp [hsz]
  · unfold needs_copy
    cases hacc : s.fs.access to_ with
    | false => simp
    | true =>
      simp only [hfrom, hto hacc, difftime]
      by_cases hsz : sb_from.st_size = sb_to.st_size
      · by_cases hm : sb_to.st_mtime - sb_from.st_mtime < 0
        · simp [hsz, hm]; omega
        · simp [hsz, hm]; omega
      · simp [hsz]
  · intro h
    simp [copyFileOnDemand, h]
  · intro h
    simp [copyFileOnDemand, h]

/-- C2 at the stale fixture: the cached copy is older and shorter than the
origin, so the decision is to copy. -/
theorem needs_copy_fresh_iff_witness :
    (Fixture.staleSys.fs.lstat "/srv/orig/a" = some ⟨3, 200, 200⟩ ∧
      (Fixture.staleSys.fs.access "/srv/cache/a" = true →
        Fixture.staleSys.fs.lstat "/srv/cache/a" = some ⟨1, 100, 100⟩)) ∧
    ((needs_copy Fixture.staleSys "/srv/orig/a" "/srv/cache/a" = some false ↔
      Fixture.staleSys.fs.access "/srv/cache/a" = true ∧ (3 : Nat) = 1 ∧ (200 : Int) ≤ 100) ∧
    (needs_copy Fixture.staleSys "/srv/orig/a" "/srv/cache/a" = some true ↔
      Fixture.staleSys.fs.access "/srv/cache/a" = false ∨ (100 : Int) < 200 ∨ (3 : Nat) ≠ 1) ∧
    (needs_copy Fixture.staleSys "/srv/orig/a" "/srv/cache/a" = some false →
      copyFileOnDemand Fixture.staleSys Fixture.goodRead "/srv/orig/a" "/srv/cache/a"
        = (0, Fixture.staleSys)) ∧
    (needs_copy Fixture.staleSys "/srv/orig/a" "/srv/cache/a" = some true →
      copyFileOnDemand Fixture.staleSys Fixture.goodRead "/srv/orig/a" "/srv/cache/a"
        = copyStep Fixture.staleSys Fixture.goodRead "/srv/orig/a" "/srv/cache/a")) :=
  ⟨⟨by decide, fun _ => by decide⟩,
   needs_copy_fresh_iff Fixture.staleSys Fixture.goodRead "/srv/orig/a" "/srv/cache/a"
     ⟨3, 200, 200⟩ ⟨1, 100, 100⟩ (by decide) (fun _ => by decide)⟩

/-! ## C3: a marker that stays fresh -/

/-- A fresh marker is neither absent nor deletable. -/
theorem markerFresh_keeps (s : Sys) (partPath : String) (h : markerFresh s partPath = true) :
    s.fs.access partPath = true ∧ canPartFileBeDeleted s partPath = false := by
  unfold markerFresh at h
  cases hf : s.fs.files partPath with
  | none => simp [hf] at h
  | some f =>
    simp only [hf, Bool.and_eq_true, decide_eq_true_eq] at h
    obtain ⟨hstat, hage⟩ := h
    refine ⟨by simp [FS.access, hf], ?_⟩
    have hnot : ¬ (s.now - f.mtime > 120) := by omega
    simp [canPartFileBeDeleted, FS.access, FS.lstat, hf, hstat, difftime, hnot]

/-- While the marker is fresh at each of the next `n` polls, the loop polls and
sleeps `n` times, hands the state to the environment untouched, and fails. -/
theorem waitLoop_fresh (sleep : Nat → Sys → Sys) (partPath : String) (w : Nat) :
    ∀ (n : Nat) (s : Sys),
      (∀ k, k < n → markerFresh ((sleep w)^[k] s) partPath = true) →
      waitLoop sleep partPath w n s =
        ⟨-1, (sleep w)^[n] s, (List.replicate n [WaitEvent.poll, WaitEvent.slept w]).flatten⟩ := by
  intro n
  induction n with
  | zero => intro s _; rfl
  | succ n ih =>
    intro s h
    obtain ⟨hacc, hdel⟩ := markerFresh_keeps s partPath (h 0 (Nat.succ_pos n))
    have hrest : ∀ k, k < n → markerFresh ((sleep w)^[k] (sleep w s)) partPath = true := by
      intro k hk
      have := h (k + 1) (Nat.succ_lt_succ hk)
      simpa [Function.iterate_succ_apply] using this
    simp [waitLoop, hacc, hdel, ih (sleep w s) hrest, Function.iterate_succ_apply,
      List.replicate_succ]

/-- C3: if the part marker exists, can be stat-ed and is at most 120 seconds old
at each of the 30 polls, `waitForFile` polls 30 times and sleeps 30 seconds after
each poll (30 sleeps, 900 seconds in all), removes nothing, leaves the state as
the environment made it, and returns -1. -/
theorem waitForFile_fresh_marker_times_out (sleep : Nat → Sys → Sys) (s : Sys) (path : String)
    (hfresh : ∀ k, k < 30 → markerFresh ((sleep 30)^[k] s) (partFilePath path) = true) :
    (waitForFile sleep s path).ret = -1 ∧
    (waitForFile sleep s path).trace =
      (List.replicate 30 [WaitEvent.poll, WaitEvent.slept 30]).flatten ∧
    (waitForFile sleep s path).trace.count WaitEvent.poll = 30 ∧
    sleepCount (waitForFile sleep s path).trace = 30 ∧
    sleptTotal (waitForFile sleep s path).trace = 900 ∧
    (∀ p, WaitEvent.removed p ∉ (waitForFile sleep s path).trace) ∧
    (waitForFile sleep s path).sys = (sleep 30)^[30] s := by
  have hacc := (markerFresh_keeps s (partFilePath path) (hfresh 0 (by decide))).1
  have hloop := waitLoop_fresh sleep (partFilePath path) 30 30 s hfresh
  have hw : waitForFile sleep s path =
      ⟨-1, (sleep 30)^[30] s, (List.replicate 30 [WaitEvent.poll, WaitEvent.slept 30]).flatten⟩ := by
    simp only [waitForFile, hacc, if_true]
    exact hloop
  rw [hw]
  refine ⟨rfl, rfl, rfl, rfl, rfl, ?_, rfl⟩
  intro p
  simp [List.replicate]

/-- C3 at a marker that a slow copy keeps refreshing. -/
theorem waitForFile_fresh_marker_times_out_witness :
    (∀ k, k < 30 →
      markerFresh ((Fixture.refresh 30)^[k] Fixture.copyingSys) (partFilePath "/srv/cache/a")
        = true) ∧
    ((waitForFile Fixture.refresh Fixture.copyingSys "/srv/cache/a").ret = -1 ∧
    (waitForFile Fixture.refresh Fixture.copyingSys "/srv/cache/a").trace =
      (List.replicate 30 [WaitEvent.poll, WaitEvent.slept 30]).flatten ∧
    (waitForFile Fixture.refresh Fixture.copyingSys "/srv/cache/a").trace.count WaitEvent.poll
      = 30 ∧
    sleepCount (waitForFile Fixture.refresh Fixture.copyingSys "/srv/cache/a").trace = 30 ∧
    sleptTotal (waitForFile Fixture.refresh Fixture.copyingSys "/srv/cache/a").trace = 900 ∧
    (∀ p, WaitEvent.removed p ∉
      (waitForFile Fixture.refresh Fixture.copyingSys "/srv/cache/a").trace) ∧
    (waitForFile Fixture.refresh Fixture.copyingSys "/srv/cache/a").sys
      = (Fixture.refresh 30)^[30] Fixture.copyingSys) :=
  ⟨by decide,
   waitForFile_fresh_marker_times_out Fixture.refresh Fixture.copyingSys "/srv/cache/a"
     (by decide)⟩

/-! ## C4: the staleness threshold -/

/-- C4: at a poll where the marker exists and its `lstat` succeeds, the marker
counts as deletable exactly when it is more than 120 seconds old. If it is, the
poll removes it and the wait returns 0 at once; the same holds for `waitForFile`
entered in that state, which then returns 0 without sleeping and leaves no
marker. If it is not (age at most 120, or a modification time in the future),
the poll leaves the state as it is and goes to sleep. A wait of a single poll
therefore removes the marker, and succeeds, exactly when the age exceeds 120. -/
theorem waitLoop_removes_iff_older_than_120 (sleep : Nat → Sys → Sys) (w count : Nat)
    (s : Sys) (path : String) (f : File)
    (hf : s.fs.files (partFilePath path) = some f) (hstat : f.statOk = true) :
    (canPartFileBeDeleted s (partFilePath path) = true ↔ 120 < s.now - f.mtime) ∧
    (120 < s.now - f.mtime →
      waitLoop sleep (partFilePath path) w (count + 1) s =
        ⟨0, { s with fs := s.fs.remove (partFilePath path) },
          [WaitEvent.poll, WaitEvent.removed (partFilePath path)]⟩) ∧
    (s.now - f.mtime ≤ 120 →
      waitLoop sleep (partFilePath path) w (count + 1) s =
        ⟨(waitLoop sleep (partFilePath path) w count (sleep w s)).ret,
          (waitLoop sleep (partFilePath path) w count (sleep w s)).sys,
          WaitEvent.poll :: WaitEvent.slept w ::
            (waitLoop sleep (partFilePath path) w count (sleep w s)).trace⟩) ∧
    (((waitLoop sleep (partFilePath path) w 1 s).ret = 0 ∧
        WaitEvent.removed (partFilePath path) ∈ (waitLoop sleep (partFilePath path) w 1 s).trace)
      ↔ 120 < s.now - f.mtime) ∧
    (120 < s.now - f.mtime →
      waitForFile sleep s path =
        ⟨0, { s with fs := s.fs.remove (partFilePath path) },
          [WaitEvent.poll, WaitEvent.removed (partFilePath path)]⟩ ∧
      sleepCount (waitForFile sleep s path).trace = 0 ∧
      (waitForFile sleep s path).sys.fs.access (partFilePath path) = false) := by
  have hacc : s.fs.access (partFilePath path) = true := by simp [FS.access, hf]
  have hdel : canPartFileBeDeleted s (partFilePath path) = true ↔ 120 < s.now - f.mtime := by
    simp [canPartFileBeDeleted, FS.access, FS.lstat, hf, hstat, difftime]
  have hold : 120 < s.now - f.mtime →
      ∀ v n, waitLoop sleep (partFilePath path) v (n + 1) s =
        ⟨0, { s with fs := s.fs.remove (partFilePath path) },
          [WaitEvent.poll, WaitEvent.removed (partFilePath path)]⟩ := by
    intro h v n
    simp [waitLoop, hacc, hdel.mpr h]
  have hyoung : s.now - f.mtime ≤ 120 → canPartFileBeDeleted s (partFilePath path) = false := by
    intro h
    cases hc : canPartFileBeDeleted s (partFilePath path) with
    | false => rfl
    | true => have := hdel.mp hc; omega
  refine ⟨hdel, fun h => hold h w count, ?_, ?_, ?_⟩
  · intro h
    simp [waitLoop, hacc, hyoung h]
  · constructor
    · intro hret
      by_contra hnot
      have hle : s.now - f.mtime ≤ 120 := by omega
      have hr := hret.1
      simp [waitLoop, hacc, hyoung hle] at hr
    · intro h
      rw [hold h w 0]
      simp
  · intro h
    have hw : waitForFile sleep s path =
        ⟨0, { s with fs := s.fs.remove (partFilePath path) },
          [WaitEvent.poll, WaitEvent.removed (partFilePath path)]⟩ := by
      simp only [waitForFile, hacc, if_true]
      exact hold h 30 29
    rw [hw]
    refine ⟨rfl, rfl, ?_⟩
    simp [FS.access, FS.remove, FS.setFile]

/-- C4 at a marker last written at time 990, found at time 1111: its age is 121
seconds. -/
theorem waitLoop_removes_iff_older_than_120_witness :
    ((Sys.mk Fixture.copyingSys.fs 1111 [] Fixture.stdio).fs.files (partFilePath "/srv/cache/a")
        = some Fixture.markerFile ∧
      Fixture.markerFile.statOk = true ∧
      (Sys.mk Fixture.copyingSys.fs 1111 [] Fixture.stdio).now - Fixture.markerFile.mtime = 121) ∧
    (waitForFile Fixture.idle (Sys.mk Fixture.copyingSys.fs 1111 [] Fixture.stdio)
        "/srv/cache/a" =
      ⟨0, { (Sys.mk Fixture.copyingSys.fs 1111 [] Fixture.stdio) with
              fs := Fixture.copyingSys.fs.remove (partFilePath "/srv/cache/a") },
        [WaitEvent.poll, WaitEvent.removed (partFilePath "/srv/cache/a")]⟩ ∧
      sleepCount (waitForFile Fixture.idle (Sys.mk Fixture.copyingSys.fs 1111 [] Fixture.stdio)
        "/srv/cache/a").trace = 0 ∧
      (waitForFile Fixture.idle (Sys.mk Fixture.copyingSys.fs 1111 [] Fixture.stdio)
        "/srv/cache/a").sys.fs.access (partFilePath "/srv/cache/a") = false) :=
  ⟨⟨by decide, by decide, by decide⟩,
   (waitLoop_removes_iff_older_than_120 Fixture.idle 30 29
      (Sys.mk Fixture.copyingSys.fs 1111 [] Fixture.stdio) "/srv/cache/a" Fixture.markerFile
      (by decide) (by decide)).2.2.2.2 (by decide)⟩

/-! ## C5: what `copyFile` may change -/

theorem partFilePath_ne (to_ : String) : partFilePath to_ ≠ to_ := by
  intro h
  have hlen := congrArg String.length h
  simp [partFilePath, String.length_append] at hlen
  exact absurd hlen (by decide)

theorem setFile_files_of_ne (fs : FS) (q p : String) (f : Option File) (h : p ≠ q) :
    (fs.setFile q f).files p = fs.files p := by
  simp [FS.setFile, h]

theorem setFile_files_self (fs : FS) (q : String) (f : Option File) :
    (fs.setFile q f).files q = f := by
  simp [FS.setFile]

theorem appendFile_files_of_ne (fs : FS) (now : Int) (q p : String) (bytes : List Nat)
    (h : p ≠ q) : (fs.appendFile now q bytes).files p = fs.files p := by
  unfold FS.appendFile
  cases fs.files q with
  | none => rfl
  | some f => exact setFile_files_of_ne fs q p _ h

theorem appendFile_keeps_marker (fs : FS) (now : Int) (q : String) (bytes : List Nat)
    (h : (fs.files q).isSome = true) : ((fs.appendFile now q bytes).files q).isSome = true := by
  unfold FS.appendFile
  cases hq : fs.files q with
  | none => simp [hq] at h
  | some f => simp [setFile_files_self]

/-- The inner loop writes to the part file only. -/
theorem writeChunk_files_of_ne (now : Int) (toPart p : String) (h : p ≠ toPart) :
    ∀ (ws : List WriteResult) (pending : List Nat) (fs : FS),
      (writeChunk now toPart ws pending fs).2.1.files p = fs.files p := by
  intro ws
  induction ws with
  | nil => intro pending fs; simp [writeChunk, appendFile_files_of_ne _ _ _ _ _ h]
  | cons r ws ih =>
    intro pending fs
    cases r with
    | wrote n =>
      simp only [writeChunk]
      split
      · rw [ih, appendFile_files_of_ne _ _ _ _ _ h]
      · simp [appendFile_files_of_ne _ _ _ _ _ h]
    | eintr => simp only [writeChunk]; exact ih pending fs
    | error => simp [writeChunk]

theorem writeChunk_keeps_marker (now : Int) (toPart : String) :
    ∀ (ws : List WriteResult) (pending : List Nat) (fs : FS),
      (fs.files toPart).isSome = true →
      ((writeChunk now toPart ws pending fs).2.1.files toPart).isSome = true := by
  intro ws
  induction ws with
  | nil => intro pending fs h; simpa [writeChunk] using appendFile_keeps_marker fs now toPart _ h
  | cons r ws ih =>
    intro pending fs h
    cases r with
    | wrote n =>
      simp only [writeChunk]
      split
      · exact ih _ _ (appendFile_keeps_marker fs now toPart _ h)
      · exact appendFile_keeps_marker fs now toPart _ h
    | eintr => simp only [writeChunk]; exact ih pending fs h
    | error => simpa [writeChunk] using h

/-- The copy loop writes to the part file only. -/
theorem copyLoop_files_of_ne (now : Int) (toPart p : String) (h : p ≠ toPart) :
    ∀ (rs : List ReadResult) (ws : List WriteResult) (fs : FS),
      (copyLoop now toPart rs ws fs).2.files p = fs.files p := by
  intro rs
  induction rs with
  | nil => intro ws fs; rfl
  | cons r rs ih =>
    intro ws fs
    cases r with
    | error => rfl
    | data bytes =>
      simp only [copyLoop]
      split
      · rfl
      · have hw := writeChunk_files_of_ne now toPart p h ws (List.take BUF_SIZE bytes) fs
        split
        · next fs1 _ heq => rw [heq] at hw; exact hw
        · next fs1 ws1 heq => rw [heq] at hw; rw [ih]; exact hw

theorem copyLoop_keeps_marker (now : Int) (toPart : String) :
    ∀ (rs : List ReadResult) (ws : List WriteResult) (fs : FS),
      (fs.files toPart).isSome = true →
      ((copyLoop now toPart rs ws fs).2.files toPart).isSome = true := by
  intro rs
  induction rs with
  | nil => intro ws fs h; exact h
  | cons r rs ih =>
    intro ws fs h
    cases r with
    | error => exact h
    | data bytes =>
      simp only [copyLoop]
      split
      · exact h
      · have hw := writeChunk_keeps_marker now toPart ws (List.take BUF_SIZE bytes) fs h
        split
        · next fs1 _ heq => rw [heq] at hw; exact hw
        · next fs1 ws1 heq => rw [heq] at hw; exact ih _ _ hw

theorem sysOpen_excl_ok (fs fs2 : FS) (now : Int) (p : String)
    (h : fs.sysOpen now p (O_WRONLY ||| O_CREAT ||| O_EXCL) = Except.ok fs2) :
    fs.files p = none ∧ fs2 = fs.setFile p (some ⟨[], now, now, true, true⟩) := by
  unfold FS.sysOpen at h
  cases hp : fs.files p with
  | some f =>
    rw [hp] at h
    have hflags : (O_WRONLY ||| O_CREAT ||| O_EXCL) &&& O_CREAT ≠ 0 ∧
        (O_WRONLY ||| O_CREAT ||| O_EXCL) &&& O_EXCL ≠ 0 := by decide
    simp [hflags] at h
  | none =>
    rw [hp] at h
    have hflags : (O_WRONLY ||| O_CREAT ||| O_EXCL) &&& O_CREAT ≠ 0 := by decide
    simp only [hflags, ne_eq, not_false_eq_true, if_true] at h
    split at h
    · injection h with h; exact ⟨rfl, h.symm⟩
    · cases h

theorem sysOpen_excl_of_absent (fs : FS) (now : Int) (p : String)
    (hp : fs.files p = none) (hdir : fs.dirs (parent_path p) = true) :
    fs.sysOpen now p (O_WRONLY ||| O_CREAT ||| O_EXCL)
      = Except.ok (fs.setFile p (some ⟨[], now, now, true, true⟩)) := by
  have hflags : (O_WRONLY ||| O_CREAT ||| O_EXCL) &&& O_CREAT ≠ 0 := by decide
  simp [FS.sysOpen, hp, hflags, hdir]

theorem sysOpen_rdonly_of_readable (fs : FS) (now : Int) (p : String) (f : File)
    (hp : fs.files p = some f) (hr : f.readable = true) :
    fs.sysOpen now p O_RDONLY = Except.ok fs := by
  have h1 : ¬ (O_RDONLY &&& O_CREAT ≠ 0 ∧ O_RDONLY &&& O_EXCL ≠ 0) := by decide
  simp [FS.sysOpen, hp, h1, hr]

theorem ancestorsAux_contains_whole :
    ∀ (cs pre : List Char), pre.reverse ++ cs ≠ [] →
      String.mk (pre.reverse ++ cs) ∈ ancestorsAux pre cs := by
  intro cs
  induction cs with
  | nil =>
    intro pre h
    have hpre : pre ≠ [] := by simpa using h
    simp [ancestorsAux, hpre]
  | cons c cs ih =>
    intro pre _
    have := ih (c :: pre) (by simp)
    simp only [ancestorsAux, List.mem_append]
    right
    simpa using this

/-- After `create_directories(dir)` the directory `dir` exists. -/
theorem create_directories_makes (fs : FS) (dir : String) (h : dir ≠ "") :
    (fs.create_directories dir).dirs dir = true := by
  have hne : ([] : List Char).reverse ++ dir.data ≠ [] := by
    intro hnil
    apply h
    have hd : dir.data = [] := by simpa using hnil
    cases dir
    simp_all
  have hmem := ancestorsAux_contains_whole dir.data [] hne
  simp only [List.reverse_nil, List.nil_append] at hmem
  simp [FS.create_directories, ancestors, hmem]

/-- The four ways `copyFile` ends: the origin cannot be opened; the marker
cannot be created; the marker was created and the copy failed; the marker was
created, filled and renamed. In the last two `fs3` is the namespace the copy
loop leaves. -/
theorem copyFile_shape (s : Sys) (io : CopyEnv) (from_ to_ : String) :
    ((∃ e, s.fs.sysOpen s.now from_ O_RDONLY = Except.error e) ∧
      copyFile s io from_ to_ = (-1, s)) ∨
    ((∃ e, (s.fs.create_directories (parent_path (partFilePath to_))).sysOpen s.now
        (partFilePath to_) (O_WRONLY ||| O_CREAT ||| O_EXCL) = Except.error e) ∧
      copyFile s io from_ to_ =
        out_error { s with fs := s.fs.create_directories (parent_path (partFilePath to_)) }
          (partFilePath to_)) ∨
    (∃ fs3, s.fs.files (partFilePath to_) = none ∧
      (∀ p, p ≠ partFilePath to_ → fs3.files p = s.fs.files p) ∧
      (fs3.files (partFilePath to_)).isSome = true ∧
      (copyFile s io from_ to_ = out_error { s with fs := fs3 } (partFilePath to_) ∨
       copyFile s io from_ to_ =
        (0, { Sys.printf { s with fs := fs3 }
                ("COPY SUCCESS - rename part file: " ++ partFilePath to_ ++ "\n") with
              fs := fs3.rename (partFilePath to_) to_ }))) := by
  cases h1 : s.fs.sysOpen s.now from_ O_RDONLY with
  | error e => left; exact ⟨⟨e, rfl⟩, by simp [copyFile, h1]⟩
  | ok fs0 =>
    right
    cases h2 : (s.fs.create_directories (parent_path (partFilePath to_))).sysOpen s.now
        (partFilePath to_) (O_WRONLY ||| O_CREAT ||| O_EXCL) with
    | error e => left; exact ⟨⟨e, rfl⟩, by simp [copyFile, h1, h2]⟩
    | ok fs2 =>
      right
      obtain ⟨habs, hfs2⟩ := sysOpen_excl_ok _ _ _ _ h2
      have habs0 : s.fs.files (partFilePath to_) = none := habs
      refine ⟨(copyLoop s.now (partFilePath to_) io.reads io.writes fs2).2, habs0, ?_, ?_, ?_⟩
      · intro p hp
        rw [copyLoop_files_of_ne _ _ _ hp, hfs2, setFile_files_of_ne _ _ _ _ hp]
        rfl
      · apply copyLoop_keeps_marker
        rw [hfs2, setFile_files_self]
        rfl
      · cases h3 : copyLoop s.now (partFilePath to_) io.reads io.writes fs2 with
        | mk e fs3 =>
          cases e with
          | eof =>
            cases hc : io.closeOk with
            | false => left; simp [copyFile, h1, h2, h3, hc]
            | true => right; simp [copyFile, h1, h2, h3, hc, Sys.printf]
          | readError => left; simp [copyFile, h1, h2, h3]
          | writeError => left; simp [copyFile, h1, h2, h3]

/-- C5: `copyFile` returns 0 or -1 and changes no file other than the
destination and its part file; its copy loop changes the part file only, so
the destination is replaced by the final `rename` alone. When it returns -1 the
destination holds what it held before, a marker that existed before is as it
was, and, if the origin could be opened and there was no marker, the marker
this call created is still there. When it returns 0 the marker is gone and the
destination exists. -/
theorem copyFile_frame (s : Sys) (io : CopyEnv) (from_ to_ : String) :
    ((copyFile s io from_ to_).1 = 0 ∨ (copyFile s io from_ to_).1 = -1) ∧
    (∀ p, p ≠ to_ → p ≠ partFilePath to_ →
      (copyFile s io from_ to_).2.fs.files p = s.fs.files p) ∧
    (∀ now reads writes fs p, p ≠ partFilePath to_ →
      (copyLoop now (partFilePath to_) reads writes fs).2.files p = fs.files p) ∧
    ((copyFile s io from_ to_).1 = -1 →
      (copyFile s io from_ to_).2.fs.files to_ = s.fs.files to_) ∧
    ((copyFile s io from_ to_).1 = -1 → ∀ f, s.fs.files (partFilePath to_) = some f →
      (copyFile s io from_ to_).2.fs.files (partFilePath to_) = some f) ∧
    ((copyFile s io from_ to_).1 = -1 →
      (∃ f, s.fs.files from_ = some f ∧ f.readable = true) →
      s.fs.files (partFilePath to_) = none → parent_path (partFilePath to_) ≠ "" →
      ((copyFile s io from_ to_).2.fs.files (partFilePath to_)).isSome = true) ∧
    ((copyFile s io from_ to_).1 = 0 →
      (copyFile s io from_ to_).2.fs.files (partFilePath to_) = none ∧
      ((copyFile s io from_ to_).2.fs.files to_).isSome = true) := by
  have hne : to_ ≠ partFilePath to_ := fun h => partFilePath_ne to_ h.symm
  refine ⟨?_, ?_, ?_, ?_, ?_, ?_, ?_⟩
  · rcases copyFile_shape s io from_ to_ with ⟨_, h⟩ | ⟨_, h⟩ | ⟨fs3, _, _, _, h | h⟩ <;>
      simp [h, out_error]
  · intro p hp1 hp2
    rcases copyFile_shape s io from_ to_ with ⟨_, h⟩ | ⟨_, h⟩ | ⟨fs3, _, hfr, _, h | h⟩
    · rw [h]
    · rw [h]; rfl
    · rw [h]; exact hfr p hp2
    · rw [h]
      show (fs3.rename (partFilePath to_) to_).files p = s.fs.files p
      unfold FS.rename
      cases fs3.files (partFilePath to_) with
      | none => exact hfr p hp2
      | some g =>
        show (FS.setFile (fs3.setFile to_ (some g)) (partFilePath to_) none).files p = _
        rw [setFile_files_of_ne _ _ _ _ hp2, setFile_files_of_ne _ _ _ _ hp1]
        exact hfr p hp2
  · intro now reads writes fs p hp
    exact copyLoop_files_of_ne now (partFilePath to_) p hp reads writes fs
  · intro hret
    rcases copyFile_shape s io from_ to_ with ⟨_, h⟩ | ⟨_, h⟩ | ⟨fs3, _, hfr, _, h | h⟩
    · rw [h]
    · rw [h]; rfl
    · rw [h]; exact hfr to_ hne
    · rw [h] at hret; simp at hret
  · intro _ f hf
    rcases copyFile_shape s io from_ to_ with ⟨_, h⟩ | ⟨_, h⟩ | ⟨fs3, habs, _, _, _⟩
    · rw [h]; exact hf
    · rw [h]; exact hf
    · rw [habs] at hf; cases hf
  · intro hret hfrom habs hdir
    obtain ⟨f, hf, hr⟩ := hfrom
    rcases copyFile_shape s io from_ to_ with ⟨⟨e, he⟩, _⟩ | ⟨⟨e, he⟩, _⟩ | ⟨fs3, _, _, hmark, h | h⟩
    · rw [sysOpen_rdonly_of_readable s.fs s.now from_ f hf hr] at he; cases he
    · have habs1 : (s.fs.create_directories (parent_path (partFilePath to_))).files
          (partFilePath to_) = none := habs
      rw [sysOpen_excl_of_absent _ _ _ habs1 (create_directories_makes s.fs _ hdir)] at he
      cases he
    · rw [h]; exact hmark
    · rw [h] at hret; simp at hret
  · intro hret
    rcases copyFile_shape s io from_ to_ with ⟨_, h⟩ | ⟨_, h⟩ | ⟨fs3, _, _, hmark, h | h⟩
    · rw [h] at hret; simp at hret
    · rw [h] at hret; simp [out_error] at hret
    · rw [h] at hret; simp [out_error] at hret
    · rw [h]
      show (fs3.rename (partFilePath to_) to_).files (partFilePath to_) = none ∧
        ((fs3.rename (partFilePath to_) to_).files to_).isSome = true
      unfold FS.rename
      cases hg : fs3.files (partFilePath to_) with
      | none => rw [hg] at hmark; simp at hmark
      | some g =>
        constructor
        · exact setFile_files_self _ _ _
        · show ((FS.setFile (fs3.setFile to_ (some g)) (partFilePath to_) none).files to_).isSome
            = true
          rw [setFile_files_of_ne _ _ _ _ hne, setFile_files_self]
          rfl

/-- At the fixture with no cached copy and a failing `read`, `copyFile` returns
-1, the destination stays absent and the marker it created stays. -/
theorem copyFile_failed_keeps_marker_example :
    (copyFile Fixture.absentSys Fixture.failingRead "/srv/orig/a" "/srv/cache/a").1 = -1 ∧
    (copyFile Fixture.absentSys Fixture.failingRead "/srv/orig/a" "/srv/cache/a").2.fs.files
      "/srv/cache/a" = none ∧
    ((copyFile Fixture.absentSys Fixture.failingRead "/srv/orig/a" "/srv/cache/a").2.fs.files
      "/srv/cache/a.part").map File.content = some [1, 2] := by
  decide

/-- At the fixture with no cached copy and a working `read`, `copyFile` returns
0 and publishes the three bytes read. -/
theorem copyFile_success_example :
    (copyFile Fixture.absentSys Fixture.goodRead "/srv/orig/a" "/srv/cache/a").1 = 0 ∧
    ((copyFile Fixture.absentSys Fixture.goodRead "/srv/orig/a" "/srv/cache/a").2.fs.files
      "/srv/cache/a").map File.content = some [1, 2, 3] ∧
    (copyFile Fixture.absentSys Fixture.goodRead "/srv/orig/a" "/srv/cache/a").2.fs.files
      "/srv/cache/a.part" = none := by
  decide

/-! ## C6: fetching twice -/

/-- C6 (the code departs from the claim): the origin cannot be opened for
reading and a stale copy of another size is cached. The first
`copyFileOnDemand` returns 0 although its `copyFile` returned -1; the cache file
then has size 1 against the origin's 3. With the origin unchanged, the second
call decides to copy again (it is not Fresh) and prints its `COPYING` line a
second time. -/
theorem copyFileOnDemand_second_call_copies_again :
    (copyFileOnDemand Fixture.unreadableSys Fixture.goodRead "/srv/orig/a" "/srv/cache/a").1 = 0 ∧
    (copyFile (Fixture.unreadableSys.printf
        "COPYING file from: /srv/orig/a to: /srv/cache/a\n")
      Fixture.goodRead "/srv/orig/a" "/srv/cache/a").1 = -1 ∧
    (copyFileOnDemand Fixture.unreadableSys Fixture.goodRead "/srv/orig/a"
      "/srv/cache/a").2.fs.lstat "/srv/orig/a" = some ⟨3, 200, 200⟩ ∧
    (copyFileOnDemand Fixture.unreadableSys Fixture.goodRead "/srv/orig/a"
      "/srv/cache/a").2.fs.lstat "/srv/cache/a" = some ⟨1, 200, 200⟩ ∧
    needs_copy
      (copyFileOnDemand Fixture.unreadableSys Fixture.goodRead "/srv/orig/a" "/srv/cache/a").2
      "/srv/orig/a" "/srv/cache/a" = some true ∧
    (copyFileOnDemand
      (copyFileOnDemand Fixture.unreadableSys Fixture.goodRead "/srv/orig/a" "/srv/cache/a").2
      Fixture.goodRead "/srv/orig/a" "/srv/cache/a").2.out =
      ["COPYING file from: /srv/orig/a to: /srv/cache/a\n",
       "COPYING file from: /srv/orig/a to: /srv/cache/a\n"] := by
  decide

/-- On the path where the copy itself succeeds the second fetch is Fresh: if the
first call decides to copy, its `copyFile` returns 0, and the published file has
the origin's size, then the first call returns 0, the cache file carries the
origin's size and modification time, and a second call decides Fresh, returns 0
and changes nothing. -/
theorem copyFileOnDemand_fresh_after_copy (s s2 : Sys) (env : CopyEnv) (from_ to_ : String)
    (sb_from sb_to : Stat) (hne : from_ ≠ to_)
    (hdecide : needs_copy s from_ to_ = some true)
    (hcopy : copyFile (s.printf ("COPYING file from: " ++ from_ ++ " to: " ++ to_ ++ "\n"))
      env from_ to_ = (0, s2))
    (hfrom : s2.fs.lstat from_ = some sb_from) (hto : s2.fs.lstat to_ = some sb_to)
    (hsize : sb_to.st_size = sb_from.st_size) :
    (copyFileOnDemand s env from_ to_).1 = 0 ∧
    (copyFileOnDemand s env from_ to_).2.fs.lstat to_
      = some ⟨sb_from.st_size, sb_from.st_atime, sb_from.st_mtime⟩ ∧
    needs_copy (copyFileOnDemand s env from_ to_).2 from_ to_ = some false ∧
    copyFileOnDemand (copyFileOnDemand s env from_ to_).2 env from_ to_
      = (0, (copyFileOnDemand s env from_ to_).2) := by
  cases hf : s2.fs.files to_ with
  | none => simp [FS.lstat, hf] at hto
  | some g =>
    have hstat : g.statOk = true := by
      cases hg : g.statOk with
      | true => rfl
      | false => simp [FS.lstat, hf, hg] at hto
    have hglen : g.content.length = sb_from.st_size := by
      simp [FS.lstat, hf, hstat] at hto
      rw [← hsize, ← hto]
    have hacc : s2.fs.access to_ = true := by simp [FS.access, hf]
    obtain ⟨g3, hg3⟩ : ∃ g3 : File,
        g3 = { g with atime := sb_from.st_atime, mtime := sb_from.st_mtime } := ⟨_, rfl⟩
    obtain ⟨fs3, hfs3⟩ : ∃ fs3 : FS, fs3 = s2.fs.setFile to_ (some g3) := ⟨_, rfl⟩
    have hres : copyFileOnDemand s env from_ to_ = (0, { s2 with fs := fs3 }) := by
      simp [copyFileOnDemand, hdecide, copyStep, hcopy, hacc, hfrom, hto, FS.utime, hf, hfs3, hg3]
    have hfrom3 : fs3.lstat from_ = some sb_from := by
      have : fs3.files from_ = s2.fs.files from_ := by
        rw [hfs3]; exact setFile_files_of_ne _ _ _ _ hne
      unfold FS.lstat at hfrom ⊢
      rw [this]
      exact hfrom
    have hto3 : fs3.lstat to_
        = some ⟨sb_from.st_size, sb_from.st_atime, sb_from.st_mtime⟩ := by
      simp [FS.lstat, hfs3, hg3, setFile_files_self, hstat, hglen]
    have hacc3 : fs3.access to_ = true := by
      simp [FS.access, hfs3, setFile_files_self]
    have hfresh : needs_copy { s2 with fs := fs3 } from_ to_ = some false := by
      simp [needs_copy, hacc3, hfrom3, hto3, difftime]
    rw [hres]
    refine ⟨rfl, hto3, hfresh, ?_⟩
    simp [copyFileOnDemand, hfresh]

/-- The success path at the fixture with no cached copy: one copy, then Fresh. -/
theorem copyFileOnDemand_fresh_after_copy_example :
    (copyFileOnDemand Fixture.absentSys Fixture.goodRead "/srv/orig/a" "/srv/cache/a").1 = 0 ∧
    needs_copy
      (copyFileOnDemand Fixture.absentSys Fixture.goodRead "/srv/orig/a" "/srv/cache/a").2
      "/srv/orig/a" "/srv/cache/a" = some false ∧
    (copyFileOnDemand
      (copyFileOnDemand Fixture.absentSys Fixture.goodRead "/srv/orig/a" "/srv/cache/a").2
      Fixture.goodRead "/srv/orig/a" "/srv/cache/a").2.out =
      ["COPYING file from: /srv/orig/a to: /srv/cache/a\n",
       "COPY SUCCESS - rename part file: /srv/cache/a.part\n"] := by
  decide

/-! ## C7: the copy mutex -/

theorem lookup_set (l : List Call) (u t : Nat) (a b : Call) (h : (l.set u a)[t]? = some b) :
    (t = u ∧ b = a) ∨ (t ≠ u ∧ l[t]? = some b) := by
  rw [List.getElem?_set] at h
  by_cases hut : u = t
  · left
    rw [if_pos hut] at h
    split at h
    · injection h with h; exact ⟨hut.symm, h.symm⟩
    · cases h
  · right
    rw [if_neg hut] at h
    exact ⟨fun e => hut e.symm, h⟩

/-- Taking the free mutex keeps the invariant. -/
theorem MutexInv_lock (σ : Shared) (u : Nat) (c2 : Call) (hinv : MutexInv σ)
    (hfree : σ.m_copyMutex = none) :
    MutexInv { σ with m_copyMutex := some u, calls := σ.calls.set u c2 } := by
  intro t c hc hsec
  rcases lookup_set _ _ _ _ _ hc with ⟨htu, _⟩ | ⟨_, hold⟩
  · simp [htu]
  · have := hinv t c hold hsec
    rw [hfree] at this
    cases this

/-- Returning, which releases the mutex, keeps the invariant. -/
theorem MutexInv_release (σ : Shared) (u : Nat) (c c2 : Call) (sys1 : Sys) (hinv : MutexInv σ)
    (hu : σ.calls[u]? = some c) (hin : c.pc.inCopySection = true)
    (hout : c2.pc.inCopySection = false) :
    MutexInv { sys := sys1, m_copyMutex := none, calls := σ.calls.set u c2 } := by
  intro t c1 hc hsec
  rcases lookup_set _ _ _ _ _ hc with ⟨_, hb⟩ | ⟨hne, hold⟩
  · rw [hb, hout] at hsec
    cases hsec
  · have h1 := hinv t c1 hold hsec
    have h2 := hinv u c hu hin
    rw [h1] at h2
    injection h2 with h2
    exact absurd h2 hne

/-- Going on inside the section keeps the invariant. -/
theorem MutexInv_inside (σ : Shared) (u : Nat) (c c2 : Call) (hinv : MutexInv σ)
    (hu : σ.calls[u]? = some c) (hin : c.pc.inCopySection = true) :
    MutexInv { σ with calls := σ.calls.set u c2 } := by
  intro t c1 hc hsec
  rcases lookup_set _ _ _ _ _ hc with ⟨htu, _⟩ | ⟨_, hold⟩
  · rw [htu]
    exact hinv u c hu hin
  · exact hinv t c1 hold hsec

theorem MutexInv_step (σ : Shared) (u : Nat) (hinv : MutexInv σ) : MutexInv (stepThread σ u) := by
  unfold stepThread
  cases hu : σ.calls[u]? with
  | none => exact hinv
  | some c =>
    cases hpc : c.pc with
    | entry =>
      cases hm : σ.m_copyMutex with
      | none => simpa [hpc, hm] using MutexInv_lock σ u { c with pc := Pc.deciding } hinv hm
      | some owner => simpa [hpc, hm] using hinv
    | deciding =>
      have hin : c.pc.inCopySection = true := by rw [hpc]; rfl
      cases hn : needs_copy σ.sys c.from_ c.to_ with
      | none =>
        simpa [hpc, hn] using
          MutexInv_release σ u c { c with pc := Pc.returned (-1) } σ.sys hinv hu hin rfl
      | some b =>
        cases b with
        | false =>
          simpa [hpc, hn] using
            MutexInv_release σ u c { c with pc := Pc.returned 0 } σ.sys hinv hu hin rfl
        | true =>
          simpa [hpc, hn] using MutexInv_inside σ u c { c with pc := Pc.copying } hinv hu hin
    | copying =>
      have hin : c.pc.inCopySection = true := by rw [hpc]; rfl
      simpa [hpc] using
        MutexInv_release σ u c { c with pc := Pc.returned (copyStep σ.sys c.io c.from_ c.to_).1 }
          (copyStep σ.sys c.io c.from_ c.to_).2 hinv hu hin rfl
    | returned res => simpa [hpc] using hinv

theorem MutexInv_initial (sys : Sys) (args : List (String × String × CopyEnv)) :
    MutexInv (initialShared sys args) := by
  intro t c hc hsec
  simp only [initialShared, List.getElem?_map] at hc
  cases ha : args[t]? with
  | none => simp [ha] at hc
  | some a =>
    simp only [ha, Option.map_some', Option.some.injEq] at hc
    rw [← hc] at hsec
    cases hsec

theorem MutexInv_run (schedule : List Nat) :
    ∀ σ : Shared, MutexInv σ → MutexInv (runSchedule σ schedule) := by
  induction schedule with
  | nil => intro σ h; exact h
  | cons u rest ih =>
    intro σ h
    exact ih (stepThread σ u) (MutexInv_step σ u h)

/-- One thread scheduled three times performs `copyFileOnDemand`. -/
theorem single_thread_run (sys : Sys) (io : CopyEnv) (from_ to_ : String) :
    (runSchedule (initialShared sys [(from_, to_, io)]) [0, 0, 0]).sys
      = (copyFileOnDemand sys io from_ to_).2 ∧
    (runSchedule (initialShared sys [(from_, to_, io)]) [0, 0, 0]).calls.map Call.pc
      = [Pc.returned (copyFileOnDemand sys io from_ to_).1] ∧
    (runSchedule (initialShared sys [(from_, to_, io)]) [0, 0, 0]).m_copyMutex = none := by
  cases hn : needs_copy sys from_ to_ with
  | none => simp [runSchedule, initialShared, stepThread, copyFileOnDemand, hn]
  | some b =>
    cases b with
    | false => simp [runSchedule, initialShared, stepThread, copyFileOnDemand, hn]
    | true => simp [runSchedule, initialShared, stepThread, copyFileOnDemand, hn]

/-- C7: in every state the threads of one `CacheManager` can reach, under any
scheduling, two calls that are both between the construction of the lock guard
and their return (deciding or copying) are the same call, and that call owns
`m_copyMutex`: the decide-and-copy sections never overlap. -/
theorem copy_sections_never_overlap (sys : Sys) (args : List (String × String × CopyEnv))
    (schedule : List Nat) (t u : Nat) (c d : Call)
    (ht : (runSchedule (initialShared sys args) schedule).calls[t]? = some c)
    (hu : (runSchedule (initialShared sys args) schedule).calls[u]? = some d)
    (hc : c.pc.inCopySection = true) (hd : d.pc.inCopySection = true) :
    t = u ∧ (runSchedule (initialShared sys args) schedule).m_copyMutex = some t := by
  have hinv := MutexInv_run schedule _ (MutexInv_initial sys args)
  have h1 := hinv t c ht hc
  have h2 := hinv u d hu hd
  rw [h1] at h2
  injection h2 with h2
  exact ⟨h2, h1⟩

/-- C7 with two fetches of different absent files: thread 0 locks, thread 1
blocks at its entry, thread 0 decides to copy, thread 1 is still blocked. -/
theorem copy_sections_never_overlap_witness :
    ((runSchedule (initialShared Fixture.absentSys
        [("/srv/orig/a", "/srv/cache/a", Fixture.goodRead),
         ("/srv/orig/b", "/srv/cache/b", Fixture.goodRead)]) [0, 1, 0, 1]).calls[0]?
        = some ⟨"/srv/orig/a", "/srv/cache/a", Fixture.goodRead, Pc.copying⟩ ∧
      (Pc.copying).inCopySection = true) ∧
    (0 = 0 ∧
      (runSchedule (initialShared Fixture.absentSys
        [("/srv/orig/a", "/srv/cache/a", Fixture.goodRead),
         ("/srv/orig/b", "/srv/cache/b", Fixture.goodRead)]) [0, 1, 0, 1]).m_copyMutex
        = some 0) :=
  ⟨⟨by rfl, by rfl⟩,
   copy_sections_never_overlap Fixture.absentSys
     [("/srv/orig/a", "/srv/cache/a", Fixture.goodRead),
      ("/srv/orig/b", "/srv/cache/b", Fixture.goodRead)] [0, 1, 0, 1] 0 0
     ⟨"/srv/orig/a", "/srv/cache/a", Fixture.goodRead, Pc.copying⟩
     ⟨"/srv/orig/a", "/srv/cache/a", Fixture.goodRead, Pc.copying⟩
     (by rfl) (by rfl) (by rfl) (by rfl)⟩

/-! ## C8: the path resolver -/

/-- C8 (the claim fails on the code): the resolver concatenates and never
rejects. The logical path `/../x` is mapped to `/srv/orig/../x`, which resolves
to `/srv/x`, outside the origin root `/srv/orig`; the same happens under the
read-cache and the write-cache root. A path with no leading slash, `x`, is
mapped to `/srv/origx`, outside the root as well. -/
theorem path_resolver_escapes_root :
    origFilePath Fixture.cfg "/../x" = "/srv/orig/../x" ∧
    normalize (origFilePath Fixture.cfg "/../x") = ["srv".data, "x".data] ∧
    normalize Fixture.cfg.m_rootPath = ["srv".data, "orig".data] ∧
    ¬ insideRoot Fixture.cfg.m_rootPath (origFilePath Fixture.cfg "/../x") ∧
    ¬ insideRoot Fixture.cfg.m_readCacheDir (readCacheFilePath Fixture.cfg "/../x") ∧
    ¬ insideRoot Fixture.cfg.m_writeCacheDir (writeCacheFilePath Fixture.cfg "/../x") ∧
    origFilePath Fixture.cfg "x" = "/srv/origx" ∧
    ¬ insideRoot Fixture.cfg.m_rootPath (origFilePath Fixture.cfg "x") := by
  decide

/-- Splitting at a slash splits the list of components. -/
theorem splitPathAux_append_slash :
    ∀ (a cur b : List Char),
      splitPathAux (a ++ '/' :: b) cur = splitPathAux a cur ++ splitPathAux b [] := by
  intro a
  induction a with
  | nil => intro cur b; simp [splitPathAux]
  | cons c a ih =>
    intro cur b
    by_cases hc : c = '/'
    · simp [splitPathAux, hc, ih]
    · simp [splitPathAux, hc, ih]

/-- Components that never step above their starting directory act on the part
of the stack they have pushed themselves. -/
theorem foldl_normStep_staysBelow :
    ∀ (l : List (List Char)) (base st : List (List Char)),
      staysBelow st.length l = true →
      l.foldl normStep (base ++ st) = base ++ l.foldl normStep st := by
  intro l
  induction l with
  | nil => intro base st _; rfl
  | cons comp rest ih =>
    intro base st h
    simp only [List.foldl_cons]
    by_cases h1 : comp = [] ∨ comp = ['.']
    · have hs : staysBelow st.length rest = true := by simpa [staysBelow, h1] using h
      simp only [normStep, h1, if_true]
      exact ih base st hs
    · by_cases h2 : comp = ['.', '.']
      · cases st with
        | nil => simp [staysBelow, h1, h2] at h
        | cons x xs =>
          have hs : staysBelow (x :: xs).dropLast.length rest = true := by
            simpa [staysBelow, h1, h2] using h
          have hstep : normStep (base ++ x :: xs) comp = base ++ (x :: xs).dropLast := by
            unfold normStep
            rw [if_neg h1, if_pos h2]
            exact List.dropLast_append_of_ne_nil base (List.cons_ne_nil x xs)
          have hstep2 : normStep (x :: xs) comp = (x :: xs).dropLast := by
            unfold normStep
            rw [if_neg h1, if_pos h2]
          rw [hstep, hstep2]
          exact ih base _ hs
      · have hs : staysBelow (st ++ [comp]).length rest = true := by
          simpa [staysBelow, h1, h2] using h
        have hstep : normStep (base ++ st) comp = base ++ (st ++ [comp]) := by
          simp [normStep, h1, h2]
        have hstep2 : normStep st comp = st ++ [comp] := by
          simp [normStep, h1, h2]
        rw [hstep, hstep2]
        exact ih base _ hs

/-- A root followed by a logical path that starts with a slash and never steps
above its starting directory resolves to the root or below it. -/
theorem insideRoot_append (root p : String) (hp : p.data.head? = some '/')
    (hstay : staysBelow 0 (splitPath p) = true) : insideRoot root (root ++ p) := by
  cases hd : p.data with
  | nil => rw [hd] at hp; cases hp
  | cons c rest =>
    rw [hd] at hp
    have hc : c = '/' := by simpa using hp
    subst hc
    have hsplit : splitPath p = [] :: splitPathAux rest [] := by
      simp [splitPath, hd, splitPathAux]
    have hrest : staysBelow 0 (splitPathAux rest []) = true := by
      rw [hsplit] at hstay
      simpa [staysBelow] using hstay
    have hall : splitPath (root ++ p) = splitPath root ++ splitPathAux rest [] := by
      simp only [splitPath, String.data_append, hd]
      exact splitPathAux_append_slash root.data [] rest
    unfold insideRoot normalize
    rw [hall, List.foldl_append]
    have := foldl_normStep_staysBelow (splitPathAux rest [])
      ((splitPath root).foldl normStep []) [] hrest
    rw [List.append_nil] at this
    rw [this]
    exact List.prefix_append _ _

/-- C8 as amended: the three functions are total, each returns its root
followed by the logical path and rejects nothing; for a logical path that
starts with a slash and whose `..` components never step above its starting
directory, each result resolves to a location inside its root. -/
theorem path_resolver_inside_root (cfg : Config) (p : String)
    (hp : p.data.head? = some '/') (hstay : staysBelow 0 (splitPath p) = true) :
    origFilePath cfg p = cfg.m_rootPath ++ p ∧
    readCacheFilePath cfg p = cfg.m_readCacheDir ++ p ∧
    writeCacheFilePath cfg p = cfg.m_writeCacheDir ++ p ∧
    insideRoot cfg.m_rootPath (origFilePath cfg p) ∧
    insideRoot cfg.m_readCacheDir (readCacheFilePath cfg p) ∧
    insideRoot cfg.m_writeCacheDir (writeCacheFilePath cfg p) :=
  ⟨rfl, rfl, rfl, insideRoot_append _ p hp hstay, insideRoot_append _ p hp hstay,
    insideRoot_append _ p hp hstay⟩

/-- C8 as amended, at the logical path `/a/../b/./c.txt`. -/
theorem path_resolver_inside_root_witness :
    ("/a/../b/./c.txt".data.head? = some '/' ∧
      staysBelow 0 (splitPath "/a/../b/./c.txt") = true) ∧
    (origFilePath Fixture.cfg "/a/../b/./c.txt" = Fixture.cfg.m_rootPath ++ "/a/../b/./c.txt" ∧
    readCacheFilePath Fixture.cfg "/a/../b/./c.txt"
      = Fixture.cfg.m_readCacheDir ++ "/a/../b/./c.txt" ∧
    writeCacheFilePath Fixture.cfg "/a/../b/./c.txt"
      = Fixture.cfg.m_writeCacheDir ++ "/a/../b/./c.txt" ∧
    insideRoot Fixture.cfg.m_rootPath (origFilePath Fixture.cfg "/a/../b/./c.txt") ∧
    insideRoot Fixture.cfg.m_readCacheDir (readCacheFilePath Fixture.cfg "/a/../b/./c.txt") ∧
    insideRoot Fixture.cfg.m_writeCacheDir (writeCacheFilePath Fixture.cfg "/a/../b/./c.txt")) :=
  ⟨⟨by decide, by decide⟩,
   path_resolver_inside_root Fixture.cfg "/a/../b/./c.txt" (by decide) (by decide)⟩

/-! ## C9: the directory `createFile` makes -/

/-- C9 (the code departs from the claim): creating `/docs/new.txt` makes the
directory `/docs`, the parent of the logical path, which lies outside the
write-cache root `/srv/cache`; the parent `/srv/cache/docs` of the write-cache
path is not made, so the `open` of `/srv/cache/docs/new.txt` fails and the call
returns `-ENOENT`. `copyFile`, given the same cache path as destination, does
make `/srv/cache/docs`. -/
theorem createFile_makes_logical_parent :
    writeCacheFilePath Fixture.cfg "/docs/new.txt" = "/srv/cache/docs/new.txt" ∧
    parent_path (writeCacheFilePath Fixture.cfg "/docs/new.txt") = "/srv/cache/docs" ∧
    Fixture.absentSys.fs.dirs "/docs" = false ∧
    (createFile Fixture.cfg Fixture.absentSys "/docs/new.txt" 420
      (O_WRONLY ||| O_CREAT)).2.fs.dirs "/docs" = true ∧
    ¬ insideRoot Fixture.cfg.m_writeCacheDir "/docs" ∧
    (createFile Fixture.cfg Fixture.absentSys "/docs/new.txt" 420
      (O_WRONLY ||| O_CREAT)).2.fs.dirs "/srv/cache/docs" = false ∧
    (createFile Fixture.cfg Fixture.absentSys "/docs/new.txt" 420
      (O_WRONLY ||| O_CREAT)).1 = -ENOENT ∧
    (createFile Fixture.cfg Fixture.absentSys "/docs/new.txt" 420
      (O_WRONLY ||| O_CREAT)).2.fs.files "/srv/cache/docs/new.txt" = none ∧
    (copyFile Fixture.absentSys Fixture.goodRead "/srv/orig/a"
      "/srv/cache/docs/new.txt").2.fs.dirs "/srv/cache/docs" = true := by
  decide

/-! ## C10: the synchronisation command -/

/-- For a positive value in the range of `int` the conversion is the floor. -/
theorem truncToInt_of_pos (x : ℚ) (h0 : 0 < x) (hlt : x < 2 ^ 31) : truncToInt x = ⌊x⌋ := by
  have hnn : (0 : ℚ) ≤ x := le_of_lt h0
  have hfl0 : (0 : Int) ≤ ⌊x⌋ := Int.floor_nonneg.mpr hnn
  have hfl1 : ⌊x⌋ < (2 : Int) ^ 31 := by
    rw [Int.floor_lt]
    push_cast
    exact hlt
  have hlow : -(2 : Int) ^ 31 ≤ ⌊x⌋ := by
    have : -(2 : Int) ^ 31 ≤ 0 := by norm_num
    omega
  have hrange : -(2 : Int) ^ 31 ≤ ⌊x⌋ ∧ ⌊x⌋ < (2 : Int) ^ 31 := ⟨hlow, hfl1⟩
  unfold truncToInt
  simp only [hnn, if_true]
  rw [if_pos hrange]

/-- The two commands in full: with a ceiling of 1.5 MB/s the limit is 1536, with
a ceiling of 0 there is no limit option. -/
theorem rsyncCommand_examples :
    rsyncCommand Fixture.cfgLimited
      = "rsync -av --bwlimit=1536 --exclude='*.part' /srv/cache/ /srv/orig" ∧
    rsyncCommand Fixture.cfgUnlimited
      = "rsync -av  --exclude='*.part' /srv/cache/ /srv/orig" := by
  constructor
  · have hd : (Fixture.cfgLimited.m_maxDownBandwidth > 0) := by
      norm_num [Fixture.cfgLimited, Fixture.cfg]
    have hval : Fixture.cfgLimited.m_maxDownBandwidth * 1024 = ((1536 : Int) : ℚ) := by
      norm_num [Fixture.cfgLimited, Fixture.cfg]
    have htr : truncToInt (Fixture.cfgLimited.m_maxDownBandwidth * 1024) = 1536 := by
      rw [truncToInt_of_pos _ (by rw [hval]; norm_num) (by rw [hval]; norm_num), hval,
        Int.floor_intCast]
    simp only [rsyncCommand, hd, if_true, htr]
    decide
  · have hd : ¬ (Fixture.cfgUnlimited.m_maxDownBandwidth > 0) := by
      norm_num [Fixture.cfgUnlimited, Fixture.cfg]
    simp only [rsyncCommand, hd, if_false]
    decide

/-- C12 (the code departs from the claim): a marker exists at entry at time
1000 and is fresh at each of the 30 polls (times 1000 to 1870); the copy
completes during the 30th sleep, so at the wake at time 1900, the 15-minute
ceiling, the marker is absent and the cache file is published. `waitForFile`
does not look at the marker after that sleep: its last action is the sleep and
it returns -1, and `openFile` returns `-EACCES`, where the claim requires
success. -/
theorem waitForFile_skips_check_after_last_sleep :
    Fixture.copyingSys.fs.access (partFilePath "/srv/cache/a") = true ∧
    (∀ k, k < 30 →
      markerFresh ((Fixture.finishing 30)^[k] Fixture.copyingSys) (partFilePath "/srv/cache/a")
        = true) ∧
    (waitForFile Fixture.finishing Fixture.copyingSys "/srv/cache/a").sys.now = 1900 ∧
    (waitForFile Fixture.finishing Fixture.copyingSys "/srv/cache/a").sys.fs.access
      (partFilePath "/srv/cache/a") = false ∧
    markerFresh (waitForFile Fixture.finishing Fixture.copyingSys "/srv/cache/a").sys
      (partFilePath "/srv/cache/a") = false ∧
    (waitForFile Fixture.finishing Fixture.copyingSys "/srv/cache/a").sys.fs.access
      "/srv/cache/a" = true ∧
    sleptTotal (waitForFile Fixture.finishing Fixture.copyingSys "/srv/cache/a").trace = 900 ∧
    (waitForFile Fixture.finishing Fixture.copyingSys "/srv/cache/a").trace.getLast?
      = some (WaitEvent.slept 30) ∧
    (waitForFile Fixture.finishing Fixture.copyingSys "/srv/cache/a").ret = -1 ∧
    (openFile Fixture.cfg Fixture.finishing Fixture.goodRead Fixture.copyingSys "/a" O_RDONLY).1
      = -EACCES := by
  decide

/-- What the loop does decide on: it fails exactly when, at each of its polls,
taken before each sleep, the marker exists and is not deletable. The state after
the last sleep plays no part. -/
theorem waitLoop_fails_iff (sleep : Nat → Sys → Sys) (partPath : String) (w : Nat) :
    ∀ (n : Nat) (s : Sys),
      (waitLoop sleep partPath w n s).ret = -1 ↔
        ∀ k, k < n →
          ((sleep w)^[k] s).fs.access partPath = true ∧
          canPartFileBeDeleted ((sleep w)^[k] s) partPath = false := by
  intro n
  induction n with
  | zero =>
    intro s
    constructor
    · intro _ k hk; cases hk
    · intro _; rfl
  | succ n ih =>
    intro s
    cases hacc : s.fs.access partPath with
    | false =>
      constructor
      · intro h; simp [waitLoop, hacc] at h
      · intro h
        have := (h 0 (Nat.succ_pos n)).1
        simp [hacc] at this
    | true =>
      cases hdel : canPartFileBeDeleted s partPath with
      | true =>
        constructor
        · intro h; simp [waitLoop, hacc, hdel] at h
        · intro h
          have := (h 0 (Nat.succ_pos n)).2
          simp [hdel] at this
      | false =>
        have hstep : (waitLoop sleep partPath w (n + 1) s).ret
            = (waitLoop sleep partPath w n (sleep w s)).ret := by
          simp [waitLoop, hacc, hdel]
        rw [hstep, ih (sleep w s)]
        constructor
        · intro h k hk
          cases k with
          | zero => exact ⟨hacc, hdel⟩
          | succ j =>
            have := h j (Nat.lt_of_succ_lt_succ hk)
            simpa [Function.iterate_succ_apply] using this
        · intro h k hk
          have := h (k + 1) (Nat.succ_lt_succ hk)
          simpa [Function.iterate_succ_apply] using this

/-! ## C13: the bytes copied -/

theorem appendFile_content (fs : FS) (now : Int) (p : String) (bytes c : List Nat)
    (h : (fs.files p).map File.content = some c) :
    ((fs.appendFile now p bytes).files p).map File.content = some (c ++ bytes) := by
  unfold FS.appendFile
  cases hp : fs.files p with
  | none => simp [hp] at h
  | some f =>
    simp only [hp, Option.map_some', Option.some.injEq] at h
    simp [setFile_files_self, h]

/-- When the inner loop completes, it has appended exactly the pending bytes. -/
theorem writeChunk_content (now : Int) (toPart : String) :
    ∀ (ws : List WriteResult) (pending : List Nat) (fs : FS) (c : List Nat),
      (fs.files toPart).map File.content = some c →
      (writeChunk now toPart ws pending fs).1 = true →
      ((writeChunk now toPart ws pending fs).2.1.files toPart).map File.content
        = some (c ++ pending) := by
  intro ws
  induction ws with
  | nil =>
    intro pending fs c h _
    simpa [writeChunk] using appendFile_content fs now toPart pending c h
  | cons r ws ih =>
    intro pending fs c h hok
    cases r with
    | wrote n =>
      have h1 := appendFile_content fs now toPart (pending.take (min n pending.length)) c h
      simp only [writeChunk] at hok ⊢
      split
      · next hrest =>
        rw [if_pos hrest] at hok
        have := ih _ _ _ h1 hok
        rw [this, List.append_assoc, List.take_append_drop]
      · next hrest =>
        have hnil : pending.drop (min n pending.length) = [] := by
          cases hd : pending.drop (min n pending.length) with
          | nil => rfl
          | cons x xs => rw [hd] at hrest; simp at hrest
        have htake : pending.take (min n pending.length) = pending := by
          have := List.take_append_drop (min n pending.length) pending
          rw [hnil, List.append_nil] at this
          exact this
        rw [htake] at h1 ⊢
        exact h1
    | eintr =>
      simp only [writeChunk] at hok ⊢
      exact ih pending fs c h hok
    | error => simp [writeChunk] at hok

/-- When the copy loop ends at the end of input, it has appended exactly the
bytes read. -/
theorem copyLoop_content (now : Int) (toPart : String) :
    ∀ (rs : List ReadResult) (ws : List WriteResult) (fs : FS) (c : List Nat),
      (fs.files toPart).map File.content = some c →
      (copyLoop now toPart rs ws fs).1 = LoopEnd.eof →
      ((copyLoop now toPart rs ws fs).2.files toPart).map File.content
        = some (c ++ readBytes rs) := by
  intro rs
  induction rs with
  | nil => intro ws fs c h _; simpa [copyLoop, readBytes] using h
  | cons r rs ih =>
    intro ws fs c h hend
    cases r with
    | error => simp [copyLoop] at hend
    | data bytes =>
      simp only [copyLoop, readBytes] at hend ⊢
      split
      · next hz => simpa [hz] using h
      · next hz =>
        rw [if_neg hz] at hend
        have hw := writeChunk_content now toPart ws (List.take BUF_SIZE bytes) fs c h
        cases hres : writeChunk now toPart ws (List.take BUF_SIZE bytes) fs with
        | mk ok rest =>
          cases rest with
          | mk fs1 ws1 =>
            rw [hres] at hw hend
            cases ok with
            | false => simp at hend
            | true =>
              simp only at hend ⊢
              have := ih ws1 fs1 _ (hw rfl) hend
              rw [this, List.append_assoc]

/-- Without a failing `write` the inner loop completes, and no failing `write`
is left for later chunks. -/
theorem writeChunk_ok (now : Int) (toPart : String) :
    ∀ (ws : List WriteResult) (pending : List Nat) (fs : FS),
      WriteResult.error ∉ ws →
      (writeChunk now toPart ws pending fs).1 = true ∧
      WriteResult.error ∉ (writeChunk now toPart ws pending fs).2.2 := by
  intro ws
  induction ws with
  | nil => intro pending fs _; simp [writeChunk]
  | cons r ws ih =>
    intro pending fs h
    have hws : WriteResult.error ∉ ws := fun hm => h (List.mem_cons_of_mem _ hm)
    cases r with
    | wrote n =>
      simp only [writeChunk]
      split
      · exact ih _ _ hws
      · exact ⟨rfl, hws⟩
    | eintr => simp only [writeChunk]; exact ih _ _ hws
    | error => exact absurd (List.mem_cons_self _ _) h

/-- Without a failing `read` or `write` the copy loop ends at the end of input. -/
theorem copyLoop_eof (now : Int) (toPart : String) :
    ∀ (rs : List ReadResult) (ws : List WriteResult) (fs : FS),
      ReadResult.error ∉ rs → WriteResult.error ∉ ws →
      (copyLoop now toPart rs ws fs).1 = LoopEnd.eof := by
  intro rs
  induction rs with
  | nil => intro ws fs _ _; rfl
  | cons r rs ih =>
    intro ws fs hr hw
    have hrs : ReadResult.error ∉ rs := fun hm => hr (List.mem_cons_of_mem _ hm)
    cases r with
    | error => exact absurd (List.mem_cons_self _ _) hr
    | data bytes =>
      simp only [copyLoop]
      split
      · rfl
      · obtain ⟨hok, hrest⟩ := writeChunk_ok now toPart ws (List.take BUF_SIZE bytes) fs hw
        cases hres : writeChunk now toPart ws (List.take BUF_SIZE bytes) fs with
        | mk ok rest =>
          cases rest with
          | mk fs1 ws1 =>
            rw [hres] at hok hrest
            simp only at hok hrest
            subst hok
            exact ih ws1 fs1 hrs hrest

/-- C13: whatever the `read` and `write` calls return (short reads, partial
writes of any length, `EINTR`), when `copyFile` returns 0 the destination holds
exactly the bytes read, in order, and the part file is gone; so if the reads
delivered the origin's content, the destination equals the origin. And
`copyFile` does return 0 whenever the origin can be opened, no marker is in the
way, its directory can be made, no `read` fails, no `write` fails other than by
`EINTR`, and `close` succeeds. -/
theorem copyFile_copies_bytes_read (s : Sys) (env : CopyEnv) (from_ to_ : String) :
    ((copyFile s env from_ to_).1 = 0 →
      ((copyFile s env from_ to_).2.fs.files to_).map File.content
        = some (readBytes env.reads) ∧
      (copyFile s env from_ to_).2.fs.files (partFilePath to_) = none ∧
      (∀ g, s.fs.files from_ = some g → readBytes env.reads = g.content →
        ((copyFile s env from_ to_).2.fs.files to_).map File.content = some g.content)) ∧
    ((∃ g, s.fs.files from_ = some g ∧ g.readable = true) →
      s.fs.files (partFilePath to_) = none → parent_path (partFilePath to_) ≠ "" →
      ReadResult.error ∉ env.reads → WriteResult.error ∉ env.writes → env.closeOk = true →
      (copyFile s env from_ to_).1 = 0) := by
  have hne : to_ ≠ partFilePath to_ := fun h => partFilePath_ne to_ h.symm
  constructor
  · intro hret
    have hcontent : ((copyFile s env from_ to_).2.fs.files to_).map File.content
          = some (readBytes env.reads) ∧
        (copyFile s env from_ to_).2.fs.files (partFilePath to_) = none := by
      unfold copyFile at hret ⊢
      cases h1 : s.fs.sysOpen s.now from_ O_RDONLY with
      | error e => rw [h1] at hret; simp at hret
      | ok fs0 =>
        rw [h1] at hret
        simp only [h1] at hret ⊢
        cases h2 : (s.fs.create_directories (parent_path (partFilePath to_))).sysOpen s.now
            (partFilePath to_) (O_WRONLY ||| O_CREAT ||| O_EXCL) with
        | error e => rw [h2] at hret; simp [out_error] at hret
        | ok fs2 =>
          rw [h2] at hret
          simp only at hret ⊢
          obtain ⟨_, hfs2⟩ := sysOpen_excl_ok _ _ _ _ h2
          have hstart : (fs2.files (partFilePath to_)).map File.content = some [] := by
            rw [hfs2, setFile_files_self]; rfl
          have hloop := copyLoop_content s.now (partFilePath to_) env.reads env.writes fs2 []
            hstart
          cases h3 : copyLoop s.now (partFilePath to_) env.reads env.writes fs2 with
          | mk e fs3 =>
            rw [h3] at hret hloop
            cases e with
            | readError => simp [out_error] at hret
            | writeError => simp [out_error] at hret
            | eof =>
              cases hc : env.closeOk with
              | false => simp [hc, out_error] at hret
              | true =>
                have hpart := hloop rfl
                simp only [List.nil_append] at hpart
                simp only [hc, Sys.printf]
                cases hg : fs3.files (partFilePath to_) with
                | none => simp [hg] at hpart
                | some f =>
                  simp only [hg, Option.map_some', Option.some.injEq] at hpart
                  simp only [FS.rename, hg]
                  constructor
                  · show ((FS.setFile (fs3.setFile to_ (some f)) (partFilePath to_) none).files
                      to_).map File.content = _
                    rw [setFile_files_of_ne _ _ _ _ hne, setFile_files_self]
                    simp [hpart]
                  · exact setFile_files_self _ _ _
    refine ⟨hcontent.1, hcontent.2, ?_⟩
    intro g _ hsame
    rw [hcontent.1, hsame]
  · intro hfrom hmarker hdir hreads hwrites hclose
    obtain ⟨g, hg, hr⟩ := hfrom
    have h1 := sysOpen_rdonly_of_readable s.fs s.now from_ g hg hr
    have hmarker1 : (s.fs.create_directories (parent_path (partFilePath to_))).files
        (partFilePath to_) = none := hmarker
    have h2 := sysOpen_excl_of_absent _ s.now _ hmarker1 (create_directories_makes s.fs _ hdir)
    have h3 := copyLoop_eof s.now (partFilePath to_) env.reads env.writes
      ((s.fs.create_directories (parent_path (partFilePath to_))).setFile (partFilePath to_)
        (some ⟨[], s.now, s.now, true, true⟩)) hreads hwrites
    cases h4 : copyLoop s.now (partFilePath to_) env.reads env.writes
      ((s.fs.create_directories (parent_path (partFilePath to_))).setFile (partFilePath to_)
        (some ⟨[], s.now, s.now, true, true⟩)) with
    | mk e fs3 =>
      rw [h4] at h3
      simp only at h3
      subst h3
      simp [copyFile, h1, h2, h4, hclose]

/-- C13 at the fixture with no cached copy: the origin is read as `[1, 2]` and
`[3]`, the first `write` is interrupted, the second takes one byte of two. -/
theorem copyFile_copies_bytes_read_witness :
    ((∃ g, Fixture.absentSys.fs.files "/srv/orig/a" = some g ∧ g.readable = true) ∧
      Fixture.absentSys.fs.files (partFilePath "/srv/cache/a") = none ∧
      parent_path (partFilePath "/srv/cache/a") ≠ "" ∧
      ReadResult.error ∉ Fixture.goodRead.reads ∧ WriteResult.error ∉ Fixture.goodRead.writes ∧
      Fixture.goodRead.closeOk = true) ∧
    (copyFile Fixture.absentSys Fixture.goodRead "/srv/orig/a" "/srv/cache/a").1 = 0 ∧
    ((copyFile Fixture.absentSys Fixture.goodRead "/srv/orig/a" "/srv/cache/a").2.fs.files
      "/srv/cache/a").map File.content = some (readBytes Fixture.goodRead.reads) ∧
    readBytes Fixture.goodRead.reads = [1, 2, 3] ∧
    ((copyFile Fixture.absentSys Fixture.goodRead "/srv/orig/a" "/srv/cache/a").2.fs.files
      "/srv/cache/a").map File.content = some Fixture.origFile.content :=
  have hret := (copyFile_copies_bytes_read Fixture.absentSys Fixture.goodRead "/srv/orig/a"
    "/srv/cache/a").2 ⟨Fixture.origFile, by decide, by decide⟩ (by decide) (by decide)
    (by decide) (by decide) (by decide)
  have hcontent := (copyFile_copies_bytes_read Fixture.absentSys Fixture.goodRead "/srv/orig/a"
    "/srv/cache/a").1 hret
  ⟨⟨⟨Fixture.origFile, by decide, by decide⟩, by decide, by decide, by decide, by decide,
     by decide⟩,
   hret, hcontent.1, by decide, hcontent.2.2 Fixture.origFile (by decide) (by decide)⟩

/-! ## C11: the pacing of the copy -/

/-- An integer is rounded to itself. -/
theorem roundEven_intCast (z : Int) : roundEven (z : ℚ) = z := by
  unfold roundEven
  simp

/-- Zero is a `double`. -/
theorem roundDouble_zero : roundDouble 0 = 0 := by
  simp [roundDouble]

/-- A number with a significand below `2 ^ 53` is a `double`: rounding leaves it
as it is. -/
theorem roundDouble_dyadic (m : ℕ) (j : ℤ) (hm : 0 < m) (hlt : m < 2 ^ 53) :
    roundDouble ((m : ℚ) * (2 : ℚ) ^ j) = (m : ℚ) * (2 : ℚ) ^ j := by
  have hmq : (0 : ℚ) < (m : ℚ) := by exact_mod_cast hm
  have h2j : (0 : ℚ) < (2 : ℚ) ^ j := by positivity
  have hx : (0 : ℚ) < (m : ℚ) * (2 : ℚ) ^ j := by positivity
  have hx0 : (m : ℚ) * (2 : ℚ) ^ j ≠ 0 := ne_of_gt hx
  have habs : |(m : ℚ) * (2 : ℚ) ^ j| = (m : ℚ) * (2 : ℚ) ^ j := abs_of_pos hx
  have hupper : (m : ℚ) * (2 : ℚ) ^ j < ((2 : ℕ) : ℚ) ^ (53 + j) := by
    rw [Nat.cast_ofNat, zpow_add₀ (by norm_num : (2 : ℚ) ≠ 0)]
    have : (m : ℚ) < (2 : ℚ) ^ (53 : ℤ) := by
      have h53 : (2 : ℚ) ^ (53 : ℤ) = ((2 ^ 53 : ℕ) : ℚ) := by norm_num
      rw [h53]
      exact_mod_cast hlt
    exact mul_lt_mul_of_pos_right this h2j
  have hlog : Int.log 2 ((m : ℚ) * (2 : ℚ) ^ j) < 53 + j :=
    (Int.lt_zpow_iff_log_lt (by decide) hx).mp hupper
  obtain ⟨n, hn⟩ : ∃ n : ℕ, (n : ℤ) = j - Int.log 2 ((m : ℚ) * (2 : ℚ) ^ j) + 52 :=
    ⟨(j - Int.log 2 ((m : ℚ) * (2 : ℚ) ^ j) + 52).toNat, Int.toNat_of_nonneg (by omega)⟩
  have hquot : (m : ℚ) * (2 : ℚ) ^ j / (2 : ℚ) ^ (Int.log 2 ((m : ℚ) * (2 : ℚ) ^ j) - 52)
      = (((m * 2 ^ n : ℕ) : ℤ) : ℚ) := by
    rw [mul_div_assoc, ← zpow_sub₀ (by norm_num : (2 : ℚ) ≠ 0)]
    have : j - (Int.log 2 ((m : ℚ) * (2 : ℚ) ^ j) - 52) = (n : ℤ) := by omega
    rw [this, zpow_natCast]
    push_cast
    ring
  simp only [roundDouble, hx0, if_false, habs]
  rw [hquot, roundEven_intCast, ← hquot]
  field_simp


/-- A value away from a tie is rounded to the integer within one half of it. -/
theorem roundEven_eq_of_near (q : ℚ) (n : Int) (h1 : (n : ℚ) - 1 / 2 < q)
    (h2 : q < (n : ℚ) + 1 / 2) : roundEven q = n := by
  have hf1 : (⌊q⌋ : ℚ) ≤ q := Int.floor_le q
  have hf2 : q < (⌊q⌋ : ℚ) + 1 := Int.lt_floor_add_one q
  unfold roundEven
  simp only
  split
  · next h =>
    have ha : ((⌊q⌋ : Int) : ℚ) < (n : ℚ) + 1 := by linarith
    have hb : (n : ℚ) < ((⌊q⌋ : Int) : ℚ) + 1 := by linarith
    have ha1 : ⌊q⌋ < n + 1 := by exact_mod_cast ha
    have hb1 : n < ⌊q⌋ + 1 := by exact_mod_cast hb
    omega
  · next h =>
    have hr : (1 : ℚ) / 2 < q - (⌊q⌋ : ℚ) := by
      rcases lt_or_eq_of_le (not_lt.mp h) with h3 | h3
      · exact h3
      · exfalso
        have hq : q = (⌊q⌋ : ℚ) + 1 / 2 := by linarith
        have ha : ((⌊q⌋ : Int) : ℚ) < (n : ℚ) := by linarith
        have hb : (n : ℚ) < ((⌊q⌋ : Int) : ℚ) + 1 := by linarith
        have ha1 : ⌊q⌋ < n := by exact_mod_cast ha
        have hb1 : n < ⌊q⌋ + 1 := by exact_mod_cast hb
        omega
    rw [if_pos hr]
    have ha : ((⌊q⌋ : Int) : ℚ) < (n : ℚ) := by linarith
    have hb : (n : ℚ) < ((⌊q⌋ : Int) : ℚ) + 2 := by linarith
    have ha1 : ⌊q⌋ < n := by exact_mod_cast ha
    have hb1 : n < ⌊q⌋ + 2 := by exact_mod_cast hb
    omega

/-- A tie between two integers is rounded to the even one. -/
theorem roundEven_eq_of_tie (q : ℚ) (n : Int) (hq : q = (n : ℚ) + 1 / 2) (heven : n % 2 = 0) :
    roundEven q = n := by
  have hfloor : ⌊q⌋ = n := by
    rw [Int.floor_eq_iff, hq]
    constructor <;> linarith
  unfold roundEven
  simp only
  rw [hfloor]
  have h1 : ¬ q - (n : ℚ) < 1 / 2 := by rw [hq]; linarith
  have h2 : ¬ (1 : ℚ) / 2 < q - (n : ℚ) := by rw [hq]; linarith
  rw [if_neg h1, if_neg h2, if_pos heven]

/-- The `double` nearest to a positive value in the binade of exponent `e` is
the value rounded in units of `2 ^ (e - 52)`. -/
theorem roundDouble_of_binade (x : ℚ) (e : Int) (hlo : (2 : ℚ) ^ e ≤ x)
    (hhi : x < (2 : ℚ) ^ (e + 1)) :
    roundDouble x = (roundEven (x / (2 : ℚ) ^ (e - 52)) : ℚ) * (2 : ℚ) ^ (e - 52) := by
  have hpos : (0 : ℚ) < x := lt_of_lt_of_le (by positivity) hlo
  have hx0 : x ≠ 0 := ne_of_gt hpos
  have habs : |x| = x := abs_of_pos hpos
  have hle : e ≤ Int.log 2 x := by
    rw [← Int.zpow_le_iff_le_log (by decide) hpos]
    rw [Nat.cast_ofNat]
    exact hlo
  have hlt : Int.log 2 x < e + 1 := by
    rw [← Int.lt_zpow_iff_log_lt (by decide) hpos]
    rw [Nat.cast_ofNat]
    exact hhi
  have hlog : Int.log 2 x = e := by omega
  simp only [roundDouble, hx0, if_false, habs, hlog]

/-- For a value that is not negative and below `2 ^ 63` the conversion to
`long` is the floor. -/
theorem truncToLong_of_nonneg (x : ℚ) (h0 : 0 ≤ x) (hlt : x < 2 ^ 63) :
    truncToLong x = ⌊x⌋ := by
  have hfl0 : (0 : Int) ≤ ⌊x⌋ := Int.floor_nonneg.mpr h0
  have hfl1 : ⌊x⌋ < (2 : Int) ^ 63 := by
    rw [Int.floor_lt]
    push_cast
    exact hlt
  have hlow : -(2 : Int) ^ 63 ≤ ⌊x⌋ := by
    have : -(2 : Int) ^ 63 ≤ 0 := by norm_num
    omega
  have hrange : -(2 : Int) ^ 63 ≤ ⌊x⌋ ∧ ⌊x⌋ < (2 : Int) ^ 63 := ⟨hlow, hfl1⟩
  unfold truncToLong
  simp only [h0, if_true]
  rw [if_pos hrange]

/-- The goal time is the `double` nearest to `20480 / (B * 1024 * 1024)`. -/
theorem goalTime_eq (cfg : Config) (hB : 0 < cfg.m_maxUpBandwidth)
    (hfloat : cfg.m_maxUpBandwidth * 1024 * 1024 < 2 ^ 128) :
    goalTime cfg = roundDouble (20480 / (cfg.m_maxUpBandwidth * 1024 * 1024)) := by
  have hpos : (0 : ℚ) < 1024 * 1024 * cfg.m_maxUpBandwidth := by positivity
  have habs : |1024 * 1024 * cfg.m_maxUpBandwidth| < 2 ^ 128 := by
    rw [abs_of_pos hpos]
    linarith
  have hq : (BUF_SIZE : ℚ) / (1024 * 1024 * cfg.m_maxUpBandwidth)
      = 20480 / (cfg.m_maxUpBandwidth * 1024 * 1024) := by
    unfold BUF_SIZE
    push_cast
    ring_nf
  unfold goalTime
  simp only
  rw [if_pos habs, hq]

/-- The pacing is done in `double`: at a ceiling of 0.25 MB/s the goal time is
5/64 s (78.125 ms); for 20125 ticks of processor time the exact difference is
58 ms, the product `diff * 1000.0` is the `double` just below 58 (the quotient
is rounded up, the difference is a tie that goes to the even neighbour), and the
pass sleeps 57 ms. -/
theorem pacing_in_double_arithmetic :
    goalTime Fixture.cfgQuarter = 5 / 64 ∧
    pacingTime 20125 = 5800636320053199 / 2 ^ 58 ∧
    (20125 : ℚ) / 1000000 < pacingTime 20125 ∧
    pacingDiff Fixture.cfgQuarter 20125 = 1044835113549955 / 2 ^ 54 ∧
    pacingProduct Fixture.cfgQuarter 20125 = 8162774324609023 / 2 ^ 47 ∧
    pacingProduct Fixture.cfgQuarter 20125 < 58 ∧
    pacingSleep Fixture.cfgQuarter Fixture.slowClock = 57 / 1000 ∧
    ⌊((5 : ℚ) / 64 - 20125 / 1000000) * 1000⌋ = 58 := by
  have hgoal : goalTime Fixture.cfgQuarter = 5 / 64 := by
    rw [goalTime_eq Fixture.cfgQuarter (by norm_num [Fixture.cfgQuarter, Fixture.cfg])
      (by norm_num [Fixture.cfgQuarter, Fixture.cfg])]
    have h := roundDouble_dyadic 5 (-6) (by decide) (by norm_num)
    have hv : ((5 : ℕ) : ℚ) * (2 : ℚ) ^ (-6 : ℤ) = 5 / 64 := by norm_num
    have hq : (20480 : ℚ) / (Fixture.cfgQuarter.m_maxUpBandwidth * 1024 * 1024) = 5 / 64 := by
      norm_num [Fixture.cfgQuarter, Fixture.cfg]
    rw [hv] at h
    rw [hq, h]
  have hticks : roundDouble (20125 : ℚ) = 20125 := by
    have h := roundDouble_dyadic 20125 0 (by decide) (by norm_num)
    have hv : ((20125 : ℕ) : ℚ) * (2 : ℚ) ^ (0 : ℤ) = 20125 := by norm_num
    rw [hv] at h
    exact h
  have htime : pacingTime 20125 = 5800636320053199 / 2 ^ 58 := by
    have hc : (CLOCKS_PER_SEC : ℚ) = 1000000 := by norm_num [CLOCKS_PER_SEC]
    unfold pacingTime
    rw [Nat.cast_ofNat, hticks, hc,
      roundDouble_of_binade _ (-6) (by norm_num) (by norm_num),
      roundEven_eq_of_near _ 5800636320053199 (by norm_num) (by norm_num)]
    norm_num
  have hdiff : pacingDiff Fixture.cfgQuarter 20125 = 1044835113549955 / 2 ^ 54 := by
    unfold pacingDiff
    rw [hgoal, htime,
      roundDouble_of_binade _ (-5) (by norm_num) (by norm_num),
      roundEven_eq_of_tie _ 8358680908399640 (by norm_num) (by decide)]
    norm_num
  have hprod : pacingProduct Fixture.cfgQuarter 20125 = 8162774324609023 / 2 ^ 47 := by
    unfold pacingProduct
    rw [hdiff,
      roundDouble_of_binade _ 5 (by norm_num) (by norm_num),
      roundEven_eq_of_near _ 8162774324609023 (by norm_num) (by norm_num)]
    norm_num
  have hfloor : ⌊(8162774324609023 : ℚ) / 2 ^ 47⌋ = 57 := by
    rw [Int.floor_eq_iff]
    constructor <;> norm_num
  refine ⟨hgoal, htime, ?_, hdiff, hprod, ?_, ?_, ?_⟩
  · rw [htime]; norm_num
  · rw [hprod]; norm_num
  · have hd : pacingDiff Fixture.cfgQuarter Fixture.slowClock.ticks > 0 := by
      show pacingDiff Fixture.cfgQuarter 20125 > 0
      rw [hdiff]; norm_num
    have ht : Fixture.slowClock.ticks = 20125 := rfl
    unfold pacingSleep
    simp only
    rw [if_pos hd, ht, hprod, truncToLong_of_nonneg _ (by norm_num) (by norm_num), hfloor]
    norm_num [msleep, Fixture.slowClock]
  · rw [Int.floor_eq_iff]
    constructor <;> norm_num

/-- Outside the two range conditions the pacing is lost. At a ceiling of
`2 ^ -100` MB/s the goal time is `5 * 2 ^ 92` s; the count of milliseconds does
not fit a `long`, the conversion delivers the least `long`, `msleep` refuses it,
and the pass does not sleep. At a ceiling of `2 ^ 110` MB/s the `float` product
is infinite, the goal time is zero, and the pass does not sleep. -/
theorem pacing_lost_out_of_range :
    goalTime Fixture.cfgTiny = 5 * 2 ^ 92 ∧
    pacingProduct Fixture.cfgTiny 0 = 5000 * 2 ^ 92 ∧
    truncToLong (pacingProduct Fixture.cfgTiny 0) = -(2 : Int) ^ 63 ∧
    pacingSleep Fixture.cfgTiny Fixture.fastClock = 0 ∧
    goalTime Fixture.cfgVast = 0 ∧
    pacingSleep Fixture.cfgVast Fixture.fastClock = 0 := by
  have htime : pacingTime 0 = 0 := by
    unfold pacingTime
    rw [Nat.cast_zero, roundDouble_zero, zero_div, roundDouble_zero]
  have hgoal : goalTime Fixture.cfgTiny = 5 * 2 ^ 92 := by
    rw [goalTime_eq Fixture.cfgTiny (by norm_num [Fixture.cfgTiny, Fixture.cfg])
      (by norm_num [Fixture.cfgTiny, Fixture.cfg])]
    have h := roundDouble_dyadic 5 92 (by decide) (by norm_num)
    have hv : ((5 : ℕ) : ℚ) * (2 : ℚ) ^ (92 : ℤ) = 5 * 2 ^ 92 := by norm_num
    have hq : (20480 : ℚ) / (Fixture.cfgTiny.m_maxUpBandwidth * 1024 * 1024) = 5 * 2 ^ 92 := by
      norm_num [Fixture.cfgTiny, Fixture.cfg]
    rw [hv] at h
    rw [hq, h]
  have hdiff : pacingDiff Fixture.cfgTiny 0 = 5 * 2 ^ 92 := by
    unfold pacingDiff
    rw [hgoal, htime, sub_zero]
    have h := roundDouble_dyadic 5 92 (by decide) (by norm_num)
    have hv : ((5 : ℕ) : ℚ) * (2 : ℚ) ^ (92 : ℤ) = 5 * 2 ^ 92 := by norm_num
    rw [hv] at h
    exact h
  have hprod : pacingProduct Fixture.cfgTiny 0 = 5000 * 2 ^ 92 := by
    unfold pacingProduct
    rw [hdiff]
    have h := roundDouble_dyadic 5000 92 (by decide) (by norm_num)
    have hv : ((5000 : ℕ) : ℚ) * (2 : ℚ) ^ (92 : ℤ) = 5000 * 2 ^ 92 := by norm_num
    have hq : (5 : ℚ) * 2 ^ 92 * 1000 = 5000 * 2 ^ 92 := by norm_num
    rw [hv] at h
    rw [hq, h]
  have htrunc : truncToLong (pacingProduct Fixture.cfgTiny 0) = -(2 : Int) ^ 63 := by
    have hfl : ⌊(5000 : ℚ) * 2 ^ 92⌋ = 5000 * 2 ^ 92 := by
      rw [Int.floor_eq_iff]
      constructor <;> norm_num
    have h0 : (0 : ℚ) ≤ 5000 * 2 ^ 92 := by norm_num
    have hout : ¬ (-(2 : Int) ^ 63 ≤ 5000 * 2 ^ 92 ∧ (5000 * 2 ^ 92 : Int) < 2 ^ 63) := by
      norm_num
    rw [hprod]
    unfold truncToLong
    simp only [h0, if_true]
    rw [hfl, if_neg hout]
  have hvast : goalTime Fixture.cfgVast = 0 := by
    have hnot : ¬ |(1024 : ℚ) * 1024 * Fixture.cfgVast.m_maxUpBandwidth| < 2 ^ 128 := by
      have : (1024 : ℚ) * 1024 * Fixture.cfgVast.m_maxUpBandwidth = 2 ^ 130 := by
        norm_num [Fixture.cfgVast, Fixture.cfg]
      rw [this, abs_of_pos (by norm_num)]
      norm_num
    unfold goalTime
    simp only
    rw [if_neg hnot]
  refine ⟨hgoal, hprod, htrunc, ?_, hvast, ?_⟩
  · have hd : pacingDiff Fixture.cfgTiny Fixture.fastClock.ticks > 0 := by
      show pacingDiff Fixture.cfgTiny 0 > 0
      rw [hdiff]; norm_num
    have ht : Fixture.fastClock.ticks = 0 := rfl
    unfold pacingSleep
    simp only
    rw [if_pos hd, ht, htrunc]
    norm_num [msleep]
  · have hd : ¬ pacingDiff Fixture.cfgVast Fixture.fastClock.ticks > 0 := by
      show ¬ pacingDiff Fixture.cfgVast 0 > 0
      unfold pacingDiff
      rw [hvast, htime, sub_zero, roundDouble_zero]
      norm_num
    unfold pacingSleep
    simp only
    rw [if_neg hd]

end FuseCache
